import Mathlib

/-! # wx/buffer.h: automatic buffer classes

A shallow embedding of the three classes of `include/wx/buffer.h`
(`wxCharBuffer`, `wxWCharBuffer`, `wxMemoryBuffer`) and the properties of
their ownership transfer and growth management.

Conventions of the embedding.

* `size_t` is an unsigned 64-bit integer: values are natural numbers and every
  `size_t` addition of the source is written with an explicit `% SIZE_MOD`.
* An owning pointer is `none` (NULL) or `some cells`, the cells of the heap block
  it designates.  A cell is `none` while it has never been written (the content
  of freshly allocated memory is indeterminate).
* The C allocator may fail.  Every function that allocates takes the outcome of
  its allocation as a last argument `ok : Bool`.
* Undefined behaviour (a store through NULL or outside the block) is the result
  `none` of an `Option`-valued function.
* A precondition check that fires is recorded by a Boolean next to the
  resulting state.
-/

namespace wx

/-! ## Machine model -/

/-- The number of values of `size_t` (64-bit). -/
def SIZE_MOD : Nat := 2 ^ 64

/-- The largest `size_t`. -/
def SIZE_MAX : Nat := SIZE_MOD - 1

/-- The largest size of an object (`PTRDIFF_MAX`, 64-bit): no allocation of more
bytes succeeds, so every block in memory has at most this many bytes. -/
def PTRDIFF_MAX : Nat := 2 ^ 63 - 1

/-- The C type `char`: one byte. -/
abbrev char := Fin 256

/-- The C type `wchar_t` (32-bit). -/
abbrev wchar_t := Fin (2 ^ 32)

/-- A heap block: its cells in order, `none` for a cell that was never written. -/
abbrev Block (α : Type) := List (Option α)

/-- An owning pointer: `none` is NULL, `some cells` designates a block. -/
abbrev Ptr (α : Type) := Option (Block α)

/-- C library `malloc(size)`: NULL on failure, else a fresh block of `size`
indeterminate cells. -/
def malloc {α : Type} (ok : Bool) (size : Nat) : Ptr α :=
  if ok then some (List.replicate size none) else none

/-- C library `realloc(ptr, size)`: NULL on failure (the old block is then left
alone); on success a block of `size` cells that keeps the old cells up to the
smaller of the two sizes.  `realloc(NULL, size)` is `malloc(size)`. -/
def realloc {α : Type} (ok : Bool) (ptr : Ptr α) (size : Nat) : Ptr α :=
  if ok then
    match ptr with
    | none => some (List.replicate size none)
    | some cells => some (cells.take size ++ List.replicate (size - cells.length) none)
  else none

/-- The store `p[i] = v` through a pointer: undefined through NULL or outside
the block. -/
def store {α : Type} (p : Ptr α) (i : Nat) (v : α) : Option (Ptr α) :=
  match p with
  | none => none
  | some cells => if i < cells.length then some (some (cells.set i (some v))) else none

/-- The load `p[i]`: undefined through NULL, outside the block, or from a cell
that was never written. -/
def load {α : Type} (p : Ptr α) (i : Nat) : Option α :=
  match p with
  | none => none
  | some cells => (cells.get? i).join

/-- C library `memcpy(dst + off, src, n)` into the block of `dst`: copying no
byte touches nothing; otherwise the `n` bytes must be readable in `src` and
the destination range must lie inside the block. -/
def memcpy {α : Type} (dst : Ptr α) (off : Option Nat) (src : List α) (n : Nat) :
    Option (Ptr α) :=
  if n = 0 then some dst
  else
    match dst, off with
    | some cells, some o =>
      if o + n ≤ cells.length ∧ n ≤ src.length then
        some (some (cells.take o ++ (src.take n).map some ++ cells.drop (o + n)))
      else none
    | _, _ => none

/-- Modelled from the spec: the macro `wxASSERT` comes from wx/debug.h, which is
not part of the sources at hand.  Per §7 a violated precondition is reported
through an assertion; the statement after the assertion still runs.  The value
says whether a violation is reported. -/
def wxASSERT (cond : Bool) : Bool := !cond

/-- Modelled from the spec: the macro `wxCHECK_RET` comes from wx/debug.h, which
is not part of the sources at hand.  Per §4.2 and §7 the checked operation
rejects the call when `cond` fails: it reports the violation and returns at
once, leaving the object `self` as it is; otherwise the body runs. -/
def wxCHECK_RET {σ : Type} (cond : Bool) (self : σ) (body : Option (σ × Bool)) :
    Option (σ × Bool) :=
  if cond then body else some (self, true)

/-! ## wxCharBuffer -/

/-- The class `wxCharBuffer`: one owning pointer. -/
structure wxCharBuffer where
  m_str : Ptr char
  deriving DecidableEq

/-- C library `strdup(str)` for a non-NULL `str`, given as the bytes readable
from it: undefined when no terminator is among them; NULL when the allocation
fails; else a block holding the bytes before the first terminator, then the
terminator. -/
def strdup (ok : Bool) (str : List char) : Option (Ptr char) :=
  if (0 : char) ∈ str then
    some (if ok then some ((str.takeWhile (fun c => c ≠ 0) ++ [0]).map some) else none)
  else none

/-- The constructor `wxCharBuffer(const char *str)`; `str` is `none` for NULL. -/
def wxCharBuffer.fromString (str : Option (List char)) (ok : Bool) : Option wxCharBuffer :=
  match str with
  | none => some { m_str := none }
  | some s => (strdup ok s).map (fun p => { m_str := p })

/-- The size of a `char` in bytes. -/
def SIZEOF_CHAR : Nat := 1

/-- The constructor `wxCharBuffer(size_t len)`: the allocation of
`(len + 1)*sizeof(char)` bytes, a `size_t`, then the store `m_str[len] = 0`,
with no check of the allocation. -/
def wxCharBuffer.fromLength (len : Nat) (ok : Bool) : Option wxCharBuffer :=
  (store (malloc ok ((((len + 1) * SIZEOF_CHAR) % SIZE_MOD) / SIZEOF_CHAR)) len (0 : char)).map
    (fun p => { m_str := p })

/-- The copy constructor `wxCharBuffer(wxCharBuffer& src)`: the new object and
`src` afterwards. -/
def wxCharBuffer.copyConstruct (src : wxCharBuffer) : wxCharBuffer × wxCharBuffer :=
  ({ m_str := src.m_str }, { src with m_str := none })

/-- The assignment `operator=(wxCharBuffer& src)` between two distinct objects:
`*this` and `src` afterwards. -/
def wxCharBuffer.assign (self src : wxCharBuffer) : wxCharBuffer × wxCharBuffer :=
  ({ self with m_str := src.m_str }, { src with m_str := none })

/-- The accessor `data()`. -/
def wxCharBuffer.data (self : wxCharBuffer) : Ptr char := self.m_str

/-- The accessor `operator[](size_t n)`: no check of any kind. -/
def wxCharBuffer.index (self : wxCharBuffer) (n : Nat) : Option char := load self.m_str n

/-! ## wxWCharBuffer -/

/-- The class `wxWCharBuffer`: one owning pointer. -/
structure wxWCharBuffer where
  m_wcs : Ptr wchar_t
  deriving DecidableEq

/-- The size of a `wchar_t` in bytes. -/
def SIZEOF_WCHAR_T : Nat := 4

/-- Modelled from the spec: `wxWcslen` comes from wx/wxchar.h, which is not part
of the sources at hand.  Per §4.1 the length of a sequence is its natural
length, the number of units before the first terminator unit; it is undefined
when no terminator is among the units readable from the pointer. -/
def wxWcslen (wcs : List wchar_t) : Option Nat :=
  if (0 : wchar_t) ∈ wcs then some (wcs.takeWhile (fun c => c ≠ 0)).length else none

/-- The constructor `wxWCharBuffer(const wchar_t *wcs)`; `wcs` is `none` for NULL.
The byte count `siz` is a `size_t`; block and copy are counted in units. -/
def wxWCharBuffer.fromString (wcs : Option (List wchar_t)) (ok : Bool) : Option wxWCharBuffer :=
  match wcs with
  | none => some { m_wcs := none }
  | some s =>
    match wxWcslen s with
    | none => none
    | some n =>
      let siz := ((n + 1) * SIZEOF_WCHAR_T) % SIZE_MOD
      let p : Ptr wchar_t := malloc ok (siz / SIZEOF_WCHAR_T)
      (memcpy p (p.map (fun _ => 0)) s (siz / SIZEOF_WCHAR_T)).map (fun q => { m_wcs := q })

/-- The constructor `wxWCharBuffer(size_t len)`: the allocation of
`(len + 1)*sizeof(wchar_t)` bytes, a `size_t`, then the store `m_wcs[len] = 0`,
with no check of the allocation.  The block is counted in units. -/
def wxWCharBuffer.fromLength (len : Nat) (ok : Bool) : Option wxWCharBuffer :=
  (store (malloc ok ((((len + 1) * SIZEOF_WCHAR_T) % SIZE_MOD) / SIZEOF_WCHAR_T)) len
    (0 : wchar_t)).map (fun p => { m_wcs := p })

/-- The copy constructor `wxWCharBuffer(wxWCharBuffer& src)`: the new object and
`src` afterwards. -/
def wxWCharBuffer.copyConstruct (src : wxWCharBuffer) : wxWCharBuffer × wxWCharBuffer :=
  ({ m_wcs := src.m_wcs }, { src with m_wcs := none })

/-- The assignment `operator=(wxWCharBuffer& src)` between two distinct objects:
`*this` and `src` afterwards. -/
def wxWCharBuffer.assign (self src : wxWCharBuffer) : wxWCharBuffer × wxWCharBuffer :=
  ({ self with m_wcs := src.m_wcs }, { src with m_wcs := none })

/-- The accessor `data()`. -/
def wxWCharBuffer.data (self : wxWCharBuffer) : Ptr wchar_t := self.m_wcs

/-- The accessor `operator[](size_t n)`: no check of any kind. -/
def wxWCharBuffer.index (self : wxWCharBuffer) (n : Nat) : Option wchar_t := load self.m_wcs n

/-! ## wxMemoryBuffer -/

/-- The enumerator `wxMemoryBuffer::BLOCK_SIZE`. -/
def BLOCK_SIZE : Nat := 1024

/-- The class `wxMemoryBuffer`: the buffer, its size, the amount of data in it. -/
structure wxMemoryBuffer where
  m_data : Ptr char
  m_size : Nat
  m_len : Nat
  deriving DecidableEq

namespace wxMemoryBuffer

/-- The constructor `wxMemoryBuffer(size_t size = BLOCK_SIZE)`. -/
def construct (size : Nat) (ok : Bool) : wxMemoryBuffer :=
  { m_data := if size ≠ 0 then malloc ok size else none, m_size := size, m_len := 0 }

/-- The constructor called without an argument: `size` takes its default value
`wxMemoryBuffer::BLOCK_SIZE`. -/
def constructDefault (ok : Bool) : wxMemoryBuffer := construct BLOCK_SIZE ok

/-- The accessor `GetData()`. -/
def GetData (self : wxMemoryBuffer) : Ptr char := self.m_data

/-- The accessor `GetBufSize()`. -/
def GetBufSize (self : wxMemoryBuffer) : Nat := self.m_size

/-- The accessor `GetDataLen()`. -/
def GetDataLen (self : wxMemoryBuffer) : Nat := self.m_len

/-- The method `ResizeIfNeeded(size_t newSize)`.  When the reallocation fails the
old block is freed, `m_data` stays NULL, and `m_size` is assigned all the same. -/
def ResizeIfNeeded (self : wxMemoryBuffer) (newSize : Nat) (ok : Bool) : wxMemoryBuffer :=
  if newSize > self.m_size then
    { self with
      m_data := realloc ok self.m_data ((newSize + BLOCK_SIZE) % SIZE_MOD)
      m_size := (newSize + BLOCK_SIZE) % SIZE_MOD }
  else self

/-- The method `SetBufSize(size_t size)`. -/
def SetBufSize (self : wxMemoryBuffer) (size : Nat) (ok : Bool) : wxMemoryBuffer :=
  self.ResizeIfNeeded size ok

/-- The method `SetDataLen(size_t len)`: the assertion, then the assignment. -/
def SetDataLen (self : wxMemoryBuffer) (len : Nat) : wxMemoryBuffer × Bool :=
  ({ self with m_len := len }, wxASSERT (decide (len ≤ self.m_size)))

/-- The method `GetWriteBuf(size_t sizeNeeded)`: the object afterwards and the
returned pointer `m_data`, as an offset into the owned block (`none` for NULL). -/
def GetWriteBuf (self : wxMemoryBuffer) (sizeNeeded : Nat) (ok : Bool) :
    wxMemoryBuffer × Option Nat :=
  let b := self.ResizeIfNeeded sizeNeeded ok
  (b, b.m_data.map (fun _ => 0))

/-- The method `UngetWriteBuf(size_t sizeUsed)`. -/
def UngetWriteBuf (self : wxMemoryBuffer) (sizeUsed : Nat) : wxMemoryBuffer × Bool :=
  self.SetDataLen sizeUsed

/-- The method `GetAppendBuf(size_t sizeNeeded)`: the object afterwards and the
returned pointer `(char*)m_data + m_len`, as an offset into the owned block
(`none` when `m_data` is NULL). -/
def GetAppendBuf (self : wxMemoryBuffer) (sizeNeeded : Nat) (ok : Bool) :
    wxMemoryBuffer × Option Nat :=
  let b := self.ResizeIfNeeded ((self.m_len + sizeNeeded) % SIZE_MOD) ok
  (b, b.m_data.map (fun _ => b.m_len))

/-- The method `UngetAppendBuf(size_t sizeUsed)`. -/
def UngetAppendBuf (self : wxMemoryBuffer) (sizeUsed : Nat) : wxMemoryBuffer × Bool :=
  self.SetDataLen ((self.m_len + sizeUsed) % SIZE_MOD)

/-- The method `AppendByte(char data)`: the object afterwards and whether the
check reported a violation; `none` when the store is undefined. -/
def AppendByte (self : wxMemoryBuffer) (data : char) (ok : Bool) :
    Option (wxMemoryBuffer × Bool) :=
  wxCHECK_RET self.m_data.isSome self
    (let b := self.ResizeIfNeeded ((self.m_len + 1) % SIZE_MOD) ok
     (store b.m_data b.m_len data).map
       (fun d => ({ b with m_data := d, m_len := (b.m_len + 1) % SIZE_MOD }, false)))

/-- The method `AppendData(void* data, size_t len)`; `data` is given as the bytes
readable from it.  The object afterwards and whether the assertion of
`SetDataLen` reported a violation; `none` when the copy is undefined. -/
def AppendData (self : wxMemoryBuffer) (data : List char) (len : Nat) (ok : Bool) :
    Option (wxMemoryBuffer × Bool) :=
  let r := self.GetAppendBuf len ok
  (memcpy r.1.m_data r.2 data len).map
    (fun d => ({ r.1 with m_data := d } : wxMemoryBuffer).UngetAppendBuf len)

/-- The copy constructor `wxMemoryBuffer(wxMemoryBuffer& src)`: the new object and
`src` afterwards. -/
def copyConstruct (src : wxMemoryBuffer) : wxMemoryBuffer × wxMemoryBuffer :=
  ({ m_data := src.m_data, m_size := src.m_size, m_len := src.m_len },
   { src with m_data := none, m_size := 0, m_len := 0 })

/-- The assignment `operator=(wxMemoryBuffer& src)` between two distinct objects:
`*this` and `src` afterwards. -/
def assign (self src : wxMemoryBuffer) : wxMemoryBuffer × wxMemoryBuffer :=
  ({ self with m_data := src.m_data, m_size := src.m_size, m_len := src.m_len },
   { src with m_data := none, m_size := 0, m_len := 0 })

/-- Appending the bytes of `l` one at a time with `AppendByte`, every allocation
having the outcome `ok`; the second component tells whether any call reported a
violation. -/
def appendEach (self : wxMemoryBuffer) (l : List char) (ok : Bool) :
    Option (wxMemoryBuffer × Bool) :=
  match l with
  | [] => some (self, false)
  | c :: cs =>
    match self.AppendByte c ok with
    | none => none
    | some (b, r) => (b.appendEach cs ok).map (fun p => (p.1, r || p.2))

/-- Whether `AppendByte` reaches the call of `realloc`: the check passes and the
comparison of `ResizeIfNeeded(m_len + 1)` holds. -/
def AppendByteReallocs (self : wxMemoryBuffer) : Bool :=
  self.m_data.isSome && decide ((self.m_len + 1) % SIZE_MOD > self.m_size)

/-- The number of calls of `realloc` made while the bytes of `l` are appended one
at a time with `AppendByte`. -/
def reallocCount (self : wxMemoryBuffer) (l : List char) (ok : Bool) : Nat :=
  match l with
  | [] => 0
  | c :: cs =>
    (if self.AppendByteReallocs then 1 else 0) +
      match self.AppendByte c ok with
      | none => 0
      | some (b, _) => b.reallocCount cs ok

end wxMemoryBuffer

/-! ## Vocabulary of the properties -/

namespace wxMemoryBuffer

/-- The cells of the owned block; no cell when the handle is NULL. -/
def cells (self : wxMemoryBuffer) : Block char := self.m_data.getD []

/-- The handle, when it is not NULL, designates a block of exactly `m_size` bytes. -/
def Sized (self : wxMemoryBuffer) : Prop :=
  ∀ cs, self.m_data = some cs → cs.length = self.m_size

/-- A call of a public operation other than a transfer, with its arguments and,
where the operation allocates, the outcome of the allocation. -/
inductive Call where
  | SetBufSize (size : Nat) (ok : Bool)
  | SetDataLen (len : Nat)
  | GetWriteBuf (sizeNeeded : Nat) (ok : Bool)
  | UngetWriteBuf (sizeUsed : Nat)
  | GetAppendBuf (sizeNeeded : Nat) (ok : Bool)
  | UngetAppendBuf (sizeUsed : Nat)
  | AppendByte (data : char) (ok : Bool)
  | AppendData (data : List char) (len : Nat) (ok : Bool)

/-- The object after a call and whether a check reported a violation; `none`
when the call is undefined. -/
def Call.run (c : Call) (b : wxMemoryBuffer) : Option (wxMemoryBuffer × Bool) :=
  match c with
  | .SetBufSize size ok => some (b.SetBufSize size ok, false)
  | .SetDataLen len => some (b.SetDataLen len)
  | .GetWriteBuf sizeNeeded ok => some ((b.GetWriteBuf sizeNeeded ok).1, false)
  | .UngetWriteBuf sizeUsed => some (b.UngetWriteBuf sizeUsed)
  | .GetAppendBuf sizeNeeded ok => some ((b.GetAppendBuf sizeNeeded ok).1, false)
  | .UngetAppendBuf sizeUsed => some (b.UngetAppendBuf sizeUsed)
  | .AppendByte data ok => b.AppendByte data ok
  | .AppendData data len ok => b.AppendData data len ok

/-- The growth target `newSize + BLOCK_SIZE` of `ResizeIfNeeded(newSize)` is not
needed or is a `size_t`. -/
def Fits (self : wxMemoryBuffer) (newSize : Nat) : Prop :=
  newSize ≤ self.m_size ∨ newSize + BLOCK_SIZE ≤ SIZE_MAX

/-- A call within the contract: the assertion of `SetDataLen` holds in the three
operations that set the length, and the growth target of the three operations
that only reserve does not wrap.  The two appending operations carry no
condition. -/
def Call.Within (c : Call) (b : wxMemoryBuffer) : Prop :=
  match c with
  | .SetBufSize size _ => b.Fits size
  | .SetDataLen len => len ≤ b.m_size
  | .GetWriteBuf sizeNeeded _ => b.Fits sizeNeeded
  | .UngetWriteBuf sizeUsed => sizeUsed ≤ b.m_size
  | .GetAppendBuf sizeNeeded _ => b.Fits ((b.m_len + sizeNeeded) % SIZE_MOD)
  | .UngetAppendBuf sizeUsed => (b.m_len + sizeUsed) % SIZE_MOD ≤ b.m_size
  | .AppendByte _ _ => True
  | .AppendData _ _ _ => True

/-- The states a buffer can be in: constructed, the result of a call allowed by
`P` on a reachable buffer, or one side of a transfer between reachable buffers. -/
inductive ReachableBy (P : Call → wxMemoryBuffer → Prop) : wxMemoryBuffer → Prop where
  | construct (size : Nat) (ok : Bool) : ReachableBy P (construct size ok)
  | call (c : Call) (b b' : wxMemoryBuffer) (r : Bool) :
      ReachableBy P b → P c b → c.run b = some (b', r) → ReachableBy P b'
  | copied (src : wxMemoryBuffer) : ReachableBy P src → ReachableBy P (copyConstruct src).1
  | copiedFrom (src : wxMemoryBuffer) : ReachableBy P src → ReachableBy P (copyConstruct src).2
  | assigned (self src : wxMemoryBuffer) :
      ReachableBy P self → ReachableBy P src → ReachableBy P (assign self src).1
  | assignedFrom (self src : wxMemoryBuffer) :
      ReachableBy P self → ReachableBy P src → ReachableBy P (assign self src).2

/-- Reachable through the public operations, with any arguments. -/
def Reachable (b : wxMemoryBuffer) : Prop := ReachableBy (fun _ _ => True) b

/-- Reachable through calls within the contract. -/
def ReachableWithin (b : wxMemoryBuffer) : Prop := ReachableBy Call.Within b

/-- The outcome of the allocation of a call; `true` for a call that does not
allocate. -/
def Call.ok (c : Call) : Bool :=
  match c with
  | .SetBufSize _ ok => ok
  | .SetDataLen _ => true
  | .GetWriteBuf _ ok => ok
  | .UngetWriteBuf _ => true
  | .GetAppendBuf _ ok => ok
  | .UngetAppendBuf _ => true
  | .AppendByte _ ok => ok
  | .AppendData _ _ ok => ok

/-- The states a buffer can be in while every allocation succeeds: constructed, the
result of a call (with any arguments) whose allocation succeeds, the result of
a store by the caller through a pointer that `GetData`, `GetWriteBuf` or
`GetAppendBuf` handed out, or one side of a transfer between such buffers. -/
inductive Allocated : wxMemoryBuffer → Prop where
  | construct (size : Nat) : Allocated (construct size true)
  | call (c : Call) (b b' : wxMemoryBuffer) (r : Bool) :
      Allocated b → c.ok = true → c.run b = some (b', r) → Allocated b'
  | written (b : wxMemoryBuffer) (i : Nat) (v : char) (d : Ptr char) :
      Allocated b → store b.m_data i v = some d → Allocated { b with m_data := d }
  | copied (src : wxMemoryBuffer) : Allocated src → Allocated (copyConstruct src).1
  | copiedFrom (src : wxMemoryBuffer) : Allocated src → Allocated (copyConstruct src).2
  | assigned (self src : wxMemoryBuffer) :
      Allocated self → Allocated src → Allocated (assign self src).1
  | assignedFrom (self src : wxMemoryBuffer) :
      Allocated self → Allocated src → Allocated (assign self src).2

end wxMemoryBuffer

/-! ## Lemmas on blocks -/

theorem take_succ_set {α : Type} (l : List α) (i : Nat) (x : α) (h : i < l.length) :
    (l.set i x).take (i + 1) = l.take i ++ [x] := by
  induction l generalizing i with
  | nil => simp at h
  | cons a t ih =>
    cases i with
    | zero => simp
    | succ j =>
      have hj : j < t.length := by simpa using h
      simp [List.set, List.take, ih j hj]

theorem realloc_grow {α : Type} (cs : Block α) (n : Nat) (h : cs.length ≤ n) :
    realloc true (some cs) n = some (cs ++ List.replicate (n - cs.length) none) := by
  simp [realloc, List.take_of_length_le h]

theorem realloc_length {α : Type} (ok : Bool) (p : Ptr α) (n : Nat) (cs : Block α)
    (h : realloc ok p n = some cs) : cs.length = n := by
  cases ok with
  | false => simp [realloc] at h
  | true =>
  cases p with
  | none =>
    simp [realloc] at h
    subst h
    simp
  | some old =>
    simp [realloc] at h
    subst h
    simp
    omega

/-- Allocating `n + 1` units and storing `v` at index `n`: a block of `n + 1` units
whose unit `n` holds `v`. -/
theorem store_malloc_last {α : Type} (n : Nat) (v : α) :
    ∃ cs : Block α, store (malloc true (n + 1)) n v = some (some cs) ∧ cs.length = n + 1 ∧
      cs[n]? = some (some v) ∧ load (some cs) n = some v := by
  refine ⟨(List.replicate (n + 1) none).set n (some v), ?_, ?_, ?_, ?_⟩
  · simp [store, malloc]
  · simp
  · simp
  · simp [load]

/-- The units before the first terminator `z` of a sequence. -/
theorem takeWhile_terminated {α : Type} [DecidableEq α] (z : α) (pre rest : List α)
    (h : ∀ c ∈ pre, c ≠ z) :
    (pre ++ z :: rest).takeWhile (fun c => decide (c ≠ z)) = pre := by
  induction pre with
  | nil => simp
  | cons a t ih =>
    have ha : a ≠ z := h a (List.mem_cons_self a t)
    have ht : ∀ c ∈ t, c ≠ z := fun c hc => h c (List.mem_cons_of_mem a hc)
    rw [List.cons_append, @List.takeWhile_cons_of_pos _ (fun c => decide (c ≠ z)) a
      (t ++ z :: rest) (decide_eq_true ha), ih ht]

/-- Reading the block that holds the units `pre` and then the terminator `z`. -/
theorem load_terminated {α : Type} (z : α) (pre rest : List α) :
    ((pre ++ [z]).map some).length = pre.length + 1 ∧
    (∀ i, i < pre.length →
      load (some ((pre ++ [z]).map some)) i = (pre ++ z :: rest)[i]?) ∧
    load (some ((pre ++ [z]).map some)) pre.length = some z := by
  refine ⟨by simp, fun i hi => ?_, ?_⟩
  · show (((pre ++ [z]).map some).get? i).join = _
    rw [List.get?_eq_getElem?, List.map_append,
      List.getElem?_append_left (by rw [List.length_map]; exact hi), List.getElem?_map,
      List.getElem?_append_left hi, List.getElem?_eq_getElem hi]
    rfl
  · show (((pre ++ [z]).map some).get? pre.length).join = _
    rw [List.get?_eq_getElem?, List.map_append,
      List.getElem?_append_right (by rw [List.length_map]), List.length_map, Nat.sub_self]
    rfl

/-! ## `ResizeIfNeeded` -/

theorem ResizeIfNeeded_len (b : wxMemoryBuffer) (n : Nat) (ok : Bool) :
    (b.ResizeIfNeeded n ok).m_len = b.m_len := by
  unfold wxMemoryBuffer.ResizeIfNeeded
  split <;> rfl

theorem ResizeIfNeeded_sized (b : wxMemoryBuffer) (n : Nat) (ok : Bool) (h : b.Sized) :
    (b.ResizeIfNeeded n ok).Sized := by
  unfold wxMemoryBuffer.ResizeIfNeeded
  split
  · intro cs hcs
    exact realloc_length ok b.m_data _ cs hcs
  · exact h

theorem ResizeIfNeeded_size (b : wxMemoryBuffer) (n : Nat) (ok : Bool)
    (hfit : n + BLOCK_SIZE ≤ SIZE_MAX) :
    (b.ResizeIfNeeded n ok).m_size = (if b.m_size < n then n + BLOCK_SIZE else b.m_size) := by
  have hM : SIZE_MAX = SIZE_MOD - 1 := rfl
  have hpos : 0 < SIZE_MOD := by simp [SIZE_MOD]
  have hmod : (n + BLOCK_SIZE) % SIZE_MOD = n + BLOCK_SIZE := Nat.mod_eq_of_lt (by omega)
  unfold wxMemoryBuffer.ResizeIfNeeded
  by_cases hg : b.m_size < n
  · rw [if_pos hg, if_pos hg]
    exact hmod
  · rw [if_neg hg, if_neg hg]

theorem ResizeIfNeeded_noop (b : wxMemoryBuffer) (n : Nat) (ok : Bool) (h : n ≤ b.m_size) :
    b.ResizeIfNeeded n ok = b := by
  unfold wxMemoryBuffer.ResizeIfNeeded
  rw [if_neg (by omega)]

theorem ResizeIfNeeded_mono (b : wxMemoryBuffer) (n : Nat) (ok : Bool) (h : b.Fits n) :
    b.m_size ≤ (b.ResizeIfNeeded n ok).m_size := by
  rcases h with h | h
  · rw [ResizeIfNeeded_noop b n ok h]
  · rw [ResizeIfNeeded_size b n ok h]
    split <;> omega

/-! ## Single steps of `AppendByte` -/

/-- One `AppendByte` on a buffer that owns a block of `m_size` bytes, without wrap. -/
theorem AppendByte_step (b : wxMemoryBuffer) (cs : Block char) (c : char)
    (hd : b.m_data = some cs) (hsz : cs.length = b.m_size) (hle : b.m_len ≤ b.m_size)
    (hno : b.m_len + 1 + BLOCK_SIZE < SIZE_MOD) :
    ∃ b' cs', b.AppendByte c true = some (b', false) ∧ b'.m_data = some cs' ∧
      cs'.length = b'.m_size ∧ b'.m_len = b.m_len + 1 ∧ b'.m_len ≤ b'.m_size ∧
      cs'.take (b.m_len + 1) = cs.take b.m_len ++ [some c] ∧
      b'.m_size = (if b.m_size < b.m_len + 1 then b.m_len + 1 + BLOCK_SIZE else b.m_size) := by
  have h1 : (b.m_len + 1) % SIZE_MOD = b.m_len + 1 := Nat.mod_eq_of_lt (by omega)
  by_cases hg : b.m_size < b.m_len + 1
  · have hlen : b.m_len = cs.length := by omega
    have h2 : (b.m_len + 1 + BLOCK_SIZE) % SIZE_MOD = b.m_len + 1 + BLOCK_SIZE :=
      Nat.mod_eq_of_lt hno
    have hr := realloc_grow cs (b.m_len + 1 + BLOCK_SIZE) (by omega)
    have hin : b.m_len < (cs ++ List.replicate (b.m_len + 1 + BLOCK_SIZE - cs.length)
        (none : Option char)).length := by
      simp only [List.length_append, List.length_replicate]; omega
    refine ⟨⟨some ((cs ++ List.replicate (b.m_len + 1 + BLOCK_SIZE - cs.length)
      none).set b.m_len (some c)), b.m_len + 1 + BLOCK_SIZE, b.m_len + 1⟩,
      _, ?_, rfl, ?_, rfl, ?_, ?_, ?_⟩
    · simp only [wxMemoryBuffer.AppendByte, wxCHECK_RET, hd, Option.isSome_some, if_true,
        wxMemoryBuffer.ResizeIfNeeded, h1, gt_iff_lt, hg, h2, hr, store]
      rw [if_pos hin]
      rfl
    · simp only [List.length_set, List.length_append, List.length_replicate]; omega
    · show b.m_len + 1 ≤ b.m_len + 1 + BLOCK_SIZE
      omega
    · rw [take_succ_set _ _ _ hin, List.take_append_of_le_length (by omega)]
    · show b.m_len + 1 + BLOCK_SIZE = _
      rw [if_pos hg]
  · have hlt : b.m_len < cs.length := by omega
    refine ⟨⟨some (cs.set b.m_len (some c)), b.m_size, b.m_len + 1⟩, _, ?_, rfl, ?_, rfl,
      ?_, ?_, ?_⟩
    · simp only [wxMemoryBuffer.AppendByte, wxCHECK_RET, hd, Option.isSome_some, if_true,
        wxMemoryBuffer.ResizeIfNeeded, h1, gt_iff_lt, hg, if_false, store]
      rw [if_pos hlt]
      rfl
    · simp only [List.length_set]; exact hsz
    · show b.m_len + 1 ≤ b.m_size
      omega
    · exact take_succ_set _ _ _ hlt
    · show b.m_size = _
      rw [if_neg hg]

theorem AppendByte_inv (b b' : wxMemoryBuffer) (c : char) (ok r : Bool) (hS : b.Sized)
    (hle : b.m_len ≤ b.m_size) (h : b.AppendByte c ok = some (b', r)) :
    b'.Sized ∧ b'.m_len ≤ b'.m_size := by
  cases hd : b.m_data with
  | none =>
    simp only [wxMemoryBuffer.AppendByte, wxCHECK_RET, hd, Option.isSome_none,
      Bool.false_eq_true, if_false, Option.some.injEq, Prod.mk.injEq] at h
    rw [← h.1]
    exact ⟨hS, hle⟩
  | some cs =>
    have hS1 := ResizeIfNeeded_sized b ((b.m_len + 1) % SIZE_MOD) ok hS
    have hl1 := ResizeIfNeeded_len b ((b.m_len + 1) % SIZE_MOD) ok
    simp only [wxMemoryBuffer.AppendByte, wxCHECK_RET, hd, Option.isSome_some, if_true] at h
    generalize b.ResizeIfNeeded ((b.m_len + 1) % SIZE_MOD) ok = b1 at h hS1 hl1
    cases hd1 : b1.m_data with
    | none => simp [store, hd1] at h
    | some cs1 =>
      have hsz := hS1 cs1 hd1
      by_cases hin : b1.m_len < cs1.length
      · simp only [store, hd1, if_pos hin, Option.map_some', Option.some.injEq,
          Prod.mk.injEq] at h
        rw [← h.1]
        refine ⟨?_, ?_⟩
        · intro cs2 hcs2
          simp only [Option.some.injEq] at hcs2
          rw [← hcs2, List.length_set]
          exact hsz
        · show (b1.m_len + 1) % SIZE_MOD ≤ b1.m_size
          have := Nat.mod_le (b1.m_len + 1) SIZE_MOD
          omega
      · simp [store, hd1, hin] at h

/-! ## `AppendData` -/

theorem memcpy_length {α : Type} (cs cs' : Block α) (o n : Nat) (src : List α)
    (h : memcpy (some cs) (some o) src n = some (some cs')) (hn : n ≠ 0) :
    cs'.length = cs.length ∧ o + n ≤ cs.length := by
  unfold memcpy at h
  rw [if_neg hn] at h
  by_cases hc : o + n ≤ cs.length ∧ n ≤ src.length
  · simp only [if_pos hc, Option.some.injEq] at h
    rw [← h]
    simp only [List.length_append, List.length_take, List.length_map, List.length_drop]
    omega
  · simp only [if_neg hc] at h
    cases h

theorem AppendData_inv (b b' : wxMemoryBuffer) (data : List char) (len : Nat) (ok r : Bool)
    (hS : b.Sized) (hle : b.m_len ≤ b.m_size) (h : b.AppendData data len ok = some (b', r)) :
    b'.Sized ∧ b'.m_len ≤ b'.m_size := by
  by_cases hn : len = 0
  · subst hn
    have h0 : (b.m_len + 0) % SIZE_MOD ≤ b.m_len := Nat.mod_le _ _
    have hb1 := ResizeIfNeeded_noop b ((b.m_len + 0) % SIZE_MOD) ok (by omega)
    simp only [wxMemoryBuffer.AppendData, wxMemoryBuffer.GetAppendBuf, hb1, memcpy, if_true,
      Option.map_some', wxMemoryBuffer.UngetAppendBuf, wxMemoryBuffer.SetDataLen,
      Option.some.injEq, Prod.mk.injEq] at h
    rw [← h.1]
    exact ⟨hS, by show (b.m_len + 0) % SIZE_MOD ≤ b.m_size; omega⟩
  · have hS1 := ResizeIfNeeded_sized b ((b.m_len + len) % SIZE_MOD) ok hS
    have hl1 := ResizeIfNeeded_len b ((b.m_len + len) % SIZE_MOD) ok
    simp only [wxMemoryBuffer.AppendData, wxMemoryBuffer.GetAppendBuf] at h
    generalize b.ResizeIfNeeded ((b.m_len + len) % SIZE_MOD) ok = b1 at h hS1 hl1
    cases hd1 : b1.m_data with
    | none => simp [memcpy, hd1, hn] at h
    | some cs1 =>
      have hsz := hS1 cs1 hd1
      rw [hd1] at h
      simp only [Option.map_some'] at h
      cases hm : memcpy (some cs1) (some b1.m_len) data len with
      | none => simp [hm] at h
      | some q =>
        cases q with
        | none => simp [memcpy, hn] at hm
        | some cs2 =>
          obtain ⟨hlen2, hbound⟩ := memcpy_length cs1 cs2 b1.m_len len data hm hn
          simp only [hm, Option.map_some', wxMemoryBuffer.UngetAppendBuf,
            wxMemoryBuffer.SetDataLen, Option.some.injEq, Prod.mk.injEq] at h
          rw [← h.1]
          refine ⟨?_, ?_⟩
          · intro cs3 hcs3
            simp only [Option.some.injEq] at hcs3
            rw [← hcs3, hlen2]
            exact hsz
          · show (b1.m_len + len) % SIZE_MOD ≤ b1.m_size
            have := Nat.mod_le (b1.m_len + len) SIZE_MOD
            omega

theorem ResizeIfNeeded_block (b : wxMemoryBuffer) (n : Nat) (hS : b.Sized)
    (hnull : b.m_data = none → b.m_size = 0) (hfit : n + BLOCK_SIZE ≤ SIZE_MAX)
    (hneed : b.m_data = none → 0 < n) :
    ∃ cs1 extra, (b.ResizeIfNeeded n true).m_data = some cs1 ∧ cs1 = b.cells ++ extra ∧
      cs1.length = (b.ResizeIfNeeded n true).m_size ∧ n ≤ (b.ResizeIfNeeded n true).m_size := by
  have hM : SIZE_MAX = SIZE_MOD - 1 := rfl
  have hpos : 0 < SIZE_MOD := by simp [SIZE_MOD]
  have hmod : (n + BLOCK_SIZE) % SIZE_MOD = n + BLOCK_SIZE := Nat.mod_eq_of_lt (by omega)
  have hsize := ResizeIfNeeded_size b n true hfit
  cases hd : b.m_data with
  | none =>
    have h0 := hnull hd
    have hn := hneed hd
    have hg : n > b.m_size := by omega
    refine ⟨List.replicate (n + BLOCK_SIZE) none, List.replicate (n + BLOCK_SIZE) none, ?_, ?_,
      ?_, ?_⟩
    · simp only [wxMemoryBuffer.ResizeIfNeeded, if_pos hg, hmod, hd, realloc, if_true]
    · simp only [wxMemoryBuffer.cells, hd, Option.getD_none, List.nil_append]
    · rw [hsize, if_pos hg, List.length_replicate]
    · rw [hsize, if_pos hg]; omega
  | some cs =>
    have hlen := hS cs hd
    by_cases hg : n > b.m_size
    · refine ⟨cs ++ List.replicate (n + BLOCK_SIZE - cs.length) none,
        List.replicate (n + BLOCK_SIZE - cs.length) none, ?_, ?_, ?_, ?_⟩
      · simp only [wxMemoryBuffer.ResizeIfNeeded, if_pos hg, hmod, hd]
        exact realloc_grow cs _ (by omega)
      · simp only [wxMemoryBuffer.cells, hd, Option.getD_some]
      · rw [hsize, if_pos hg, List.length_append, List.length_replicate]; omega
      · rw [hsize, if_pos hg]; omega
    · have hb := ResizeIfNeeded_noop b n true (by omega)
      refine ⟨cs, [], ?_, ?_, ?_, ?_⟩
      · rw [hb, hd]
      · simp only [wxMemoryBuffer.cells, hd, Option.getD_some, List.append_nil]
      · rw [hb, hlen]
      · rw [hb]; omega

theorem ResizeIfNeeded_ge (b : wxMemoryBuffer) (n : Nat) (ok : Bool) (h : b.Fits n) :
    n ≤ (b.ResizeIfNeeded n ok).m_size := by
  rcases h with h | h
  · rw [ResizeIfNeeded_noop b n ok h]; exact h
  · rw [ResizeIfNeeded_size b n ok h]
    split <;> omega

/-- A successful `ResizeIfNeeded` without wrap on a well-formed buffer: the result is
well-formed, the first `L ≤ m_size` cells are kept, and the handle is not NULL
when a positive size was asked for. -/
theorem ResizeIfNeeded_keeps (b : wxMemoryBuffer) (n L : Nat) (hS : b.Sized)
    (hnull : b.m_data = none → b.m_size = 0) (hL : L ≤ b.m_size) (hfit : b.Fits n) :
    (b.ResizeIfNeeded n true).Sized ∧
      ((b.ResizeIfNeeded n true).m_data = none → (b.ResizeIfNeeded n true).m_size = 0) ∧
      (b.ResizeIfNeeded n true).cells.take L = b.cells.take L ∧
      (0 < n → (b.ResizeIfNeeded n true).m_data ≠ none) := by
  by_cases hle : n ≤ b.m_size
  · rw [ResizeIfNeeded_noop b n true hle]
    refine ⟨hS, hnull, rfl, fun hn hd => ?_⟩
    have := hnull hd
    omega
  · have hfit' : n + BLOCK_SIZE ≤ SIZE_MAX := by
      rcases hfit with h | h
      · exact absurd h hle
      · exact h
    obtain ⟨cs1, extra, hd1, hcs1, hlen1, _⟩ :=
      ResizeIfNeeded_block b n hS hnull hfit' (fun _ => by omega)
    have hcl : L ≤ b.cells.length := by
      cases hd : b.m_data with
      | none => rw [hnull hd] at hL; omega
      | some cs =>
        simp only [wxMemoryBuffer.cells, hd, Option.getD_some]
        rw [hS cs hd]; exact hL
    refine ⟨ResizeIfNeeded_sized b n true hS, fun h => ?_, ?_, fun _ h => ?_⟩
    · rw [hd1] at h; cases h
    · simp only [wxMemoryBuffer.cells, hd1, Option.getD_some]
      rw [hcs1, List.take_append_of_le_length hcl]
      rfl
    · rw [hd1] at h; cases h

/-- One `AppendData` on a well-formed buffer, without wrap. -/
theorem AppendData_run (b : wxMemoryBuffer) (s : List char) (hS : b.Sized)
    (hnull : b.m_data = none → b.m_size = 0) (hle : b.m_len ≤ b.m_size)
    (hfit : b.m_len + s.length + BLOCK_SIZE ≤ SIZE_MAX) :
    ∃ b', b.AppendData s s.length true = some (b', false) ∧
      b'.m_len = b.m_len + s.length ∧
      b'.cells.take b.m_len = b.cells.take b.m_len ∧
      (b'.cells.drop b.m_len).take s.length = s.map some ∧
      b.m_len + s.length ≤ b'.m_size ∧ b.m_size ≤ b'.m_size := by
  have hM : SIZE_MAX = SIZE_MOD - 1 := rfl
  have hpos : 0 < SIZE_MOD := by simp [SIZE_MOD]
  have hmod : (b.m_len + s.length) % SIZE_MOD = b.m_len + s.length :=
    Nat.mod_eq_of_lt (by omega)
  have hmono := ResizeIfNeeded_mono b (b.m_len + s.length) true (Or.inr hfit)
  have hl1 := ResizeIfNeeded_len b (b.m_len + s.length) true
  by_cases hn : s.length = 0
  · have hs : s = [] := List.length_eq_zero.mp hn
    subst hs
    have hb1 := ResizeIfNeeded_noop b b.m_len true hle
    have hm0 : b.m_len % SIZE_MOD = b.m_len := Nat.mod_eq_of_lt (by simp at hfit; omega)
    refine ⟨{ b with m_len := b.m_len }, ?_, rfl, rfl, ?_, ?_, Nat.le_refl _⟩
    · simp only [wxMemoryBuffer.AppendData, wxMemoryBuffer.GetAppendBuf, List.length_nil,
        Nat.add_zero, hm0, hb1, memcpy, if_true,
        Option.map_some', wxMemoryBuffer.UngetAppendBuf, wxMemoryBuffer.SetDataLen, wxASSERT,
        decide_eq_true hle, Bool.not_true]
    · simp
    · simpa using hle
  · obtain ⟨cs1, extra, hd1, hcs1, hlen1, hge1⟩ :=
      ResizeIfNeeded_block b (b.m_len + s.length) hS hnull hfit (fun _ => by omega)
    have hcl : b.m_len ≤ b.cells.length := by
      cases hd : b.m_data with
      | none => rw [hnull hd] at hle; omega
      | some cs =>
        simp only [wxMemoryBuffer.cells, hd, Option.getD_some]
        rw [hS cs hd]; exact hle
    have hbound : b.m_len + s.length ≤ cs1.length ∧ s.length ≤ s.length := ⟨by omega, Nat.le_refl _⟩
    refine ⟨⟨some (cs1.take b.m_len ++ s.map some ++ cs1.drop (b.m_len + s.length)),
      (b.ResizeIfNeeded (b.m_len + s.length) true).m_size, b.m_len + s.length⟩, ?_, rfl, ?_, ?_,
      ?_, ?_⟩
    · simp only [wxMemoryBuffer.AppendData, wxMemoryBuffer.GetAppendBuf, hmod, hd1, hl1,
        Option.map_some', memcpy, if_neg hn, if_pos hbound, List.take_length,
        wxMemoryBuffer.UngetAppendBuf, wxMemoryBuffer.SetDataLen, wxASSERT,
        decide_eq_true hge1, Bool.not_true]
    · show (cs1.take b.m_len ++ s.map some ++ cs1.drop (b.m_len + s.length)).take b.m_len = _
      rw [List.append_assoc, List.take_append_of_le_length (by rw [List.length_take]; omega),
        List.take_take, Nat.min_self, hcs1, List.take_append_of_le_length hcl]
    · show ((cs1.take b.m_len ++ s.map some ++ cs1.drop (b.m_len + s.length)).drop
        b.m_len).take s.length = _
      rw [List.append_assoc, List.drop_left' (by rw [List.length_take]; omega),
        List.take_left' (by rw [List.length_map])]
    · exact hge1
    · exact hmono

/-! ## Preservation of the representation and of `m_len ≤ m_size` -/

theorem construct_inv (size : Nat) (ok : Bool) :
    (wxMemoryBuffer.construct size ok).Sized ∧
      (wxMemoryBuffer.construct size ok).m_len ≤ (wxMemoryBuffer.construct size ok).m_size := by
  refine ⟨?_, Nat.zero_le _⟩
  intro cs hcs
  show cs.length = size
  simp only [wxMemoryBuffer.construct, malloc] at hcs
  by_cases h0 : size = 0
  · simp [h0] at hcs
  · cases ok with
    | false => simp [h0] at hcs
    | true =>
      simp only [ne_eq, h0, not_false_eq_true, if_true, Option.some.injEq] at hcs
      rw [← hcs, List.length_replicate]

theorem Call_inv (c : wxMemoryBuffer.Call) (b b' : wxMemoryBuffer) (r : Bool) (hS : b.Sized)
    (hle : b.m_len ≤ b.m_size) (hw : c.Within b) (h : c.run b = some (b', r)) :
    b'.Sized ∧ b'.m_len ≤ b'.m_size := by
  cases c with
  | SetBufSize size ok =>
    simp only [wxMemoryBuffer.Call.run, wxMemoryBuffer.SetBufSize, Option.some.injEq,
      Prod.mk.injEq] at h
    rw [← h.1]
    have := ResizeIfNeeded_mono b size ok hw
    exact ⟨ResizeIfNeeded_sized b size ok hS, by rw [ResizeIfNeeded_len]; omega⟩
  | SetDataLen len =>
    simp only [wxMemoryBuffer.Call.run, wxMemoryBuffer.SetDataLen, Option.some.injEq,
      Prod.mk.injEq] at h
    rw [← h.1]
    exact ⟨hS, hw⟩
  | GetWriteBuf sizeNeeded ok =>
    simp only [wxMemoryBuffer.Call.run, wxMemoryBuffer.GetWriteBuf, Option.some.injEq,
      Prod.mk.injEq] at h
    rw [← h.1]
    have := ResizeIfNeeded_mono b sizeNeeded ok hw
    exact ⟨ResizeIfNeeded_sized b sizeNeeded ok hS, by rw [ResizeIfNeeded_len]; omega⟩
  | UngetWriteBuf sizeUsed =>
    simp only [wxMemoryBuffer.Call.run, wxMemoryBuffer.UngetWriteBuf,
      wxMemoryBuffer.SetDataLen, Option.some.injEq, Prod.mk.injEq] at h
    rw [← h.1]
    exact ⟨hS, hw⟩
  | GetAppendBuf sizeNeeded ok =>
    simp only [wxMemoryBuffer.Call.run, wxMemoryBuffer.GetAppendBuf, Option.some.injEq,
      Prod.mk.injEq] at h
    rw [← h.1]
    have := ResizeIfNeeded_mono b _ ok hw
    exact ⟨ResizeIfNeeded_sized b _ ok hS, by rw [ResizeIfNeeded_len]; omega⟩
  | UngetAppendBuf sizeUsed =>
    simp only [wxMemoryBuffer.Call.run, wxMemoryBuffer.UngetAppendBuf,
      wxMemoryBuffer.SetDataLen, Option.some.injEq, Prod.mk.injEq] at h
    rw [← h.1]
    exact ⟨hS, hw⟩
  | AppendByte data ok => exact AppendByte_inv b b' data ok r hS hle h
  | AppendData data len ok => exact AppendData_inv b b' data len ok r hS hle h

/-- Every state reachable within the contract owns a block of `m_size` bytes (when
the handle is not NULL) and has `m_len ≤ m_size`. -/
theorem ReachableWithin_inv (b : wxMemoryBuffer) (h : b.ReachableWithin) :
    b.Sized ∧ b.m_len ≤ b.m_size := by
  induction h with
  | construct size ok => exact construct_inv size ok
  | call c b b' r _ hw hrun ih => exact Call_inv c b b' r ih.1 ih.2 hw hrun
  | copied src _ ih => exact ih
  | copiedFrom src _ _ => exact ⟨fun cs hcs => (by cases hcs), Nat.le_refl _⟩
  | assigned self src _ _ _ ih => exact ih
  | assignedFrom self src _ _ _ _ => exact ⟨fun cs hcs => (by cases hcs), Nat.le_refl _⟩

/-! ## The representation while every allocation succeeds -/

theorem ResizeIfNeeded_true_null (b : wxMemoryBuffer) (n : Nat)
    (hnull : b.m_data = none → b.m_size = 0) :
    (b.ResizeIfNeeded n true).m_data = none → (b.ResizeIfNeeded n true).m_size = 0 := by
  by_cases hg : n > b.m_size
  · intro h
    simp only [wxMemoryBuffer.ResizeIfNeeded, if_pos hg, realloc, if_true] at h
    cases hb : b.m_data with
    | none => simp [hb] at h
    | some cs => simp [hb] at h
  · rw [ResizeIfNeeded_noop b n true (by omega)]
    exact hnull

theorem AppendByte_keeps (b b' : wxMemoryBuffer) (c : char) (r : Bool) (hS : b.Sized)
    (hnull : b.m_data = none → b.m_size = 0) (h : b.AppendByte c true = some (b', r)) :
    b'.Sized ∧ (b'.m_data = none → b'.m_size = 0) := by
  cases hd : b.m_data with
  | none =>
    simp only [wxMemoryBuffer.AppendByte, wxCHECK_RET, hd, Option.isSome_none,
      Bool.false_eq_true, if_false, Option.some.injEq, Prod.mk.injEq] at h
    rw [← h.1]
    exact ⟨hS, hnull⟩
  | some cs =>
    have hS1 := ResizeIfNeeded_sized b ((b.m_len + 1) % SIZE_MOD) true hS
    simp only [wxMemoryBuffer.AppendByte, wxCHECK_RET, hd, Option.isSome_some, if_true] at h
    generalize b.ResizeIfNeeded ((b.m_len + 1) % SIZE_MOD) true = b1 at h hS1
    cases hd1 : b1.m_data with
    | none => simp [store, hd1] at h
    | some cs1 =>
      have hsz := hS1 cs1 hd1
      by_cases hin : b1.m_len < cs1.length
      · simp only [store, hd1, if_pos hin, Option.map_some', Option.some.injEq,
          Prod.mk.injEq] at h
        rw [← h.1]
        refine ⟨?_, fun hn => ?_⟩
        · intro cs2 hcs2
          simp only [Option.some.injEq] at hcs2
          rw [← hcs2, List.length_set]
          exact hsz
        · cases hn
      · simp [store, hd1, hin] at h

theorem AppendData_keeps (b b' : wxMemoryBuffer) (data : List char) (len : Nat) (r : Bool)
    (hS : b.Sized) (hnull : b.m_data = none → b.m_size = 0)
    (h : b.AppendData data len true = some (b', r)) :
    b'.Sized ∧ (b'.m_data = none → b'.m_size = 0) := by
  have hS1 := ResizeIfNeeded_sized b ((b.m_len + len) % SIZE_MOD) true hS
  have hn1 := ResizeIfNeeded_true_null b ((b.m_len + len) % SIZE_MOD) hnull
  simp only [wxMemoryBuffer.AppendData, wxMemoryBuffer.GetAppendBuf] at h
  generalize b.ResizeIfNeeded ((b.m_len + len) % SIZE_MOD) true = b1 at h hS1 hn1
  by_cases hn : len = 0
  · subst hn
    simp only [memcpy, if_true, Option.map_some', wxMemoryBuffer.UngetAppendBuf,
      wxMemoryBuffer.SetDataLen, Option.some.injEq, Prod.mk.injEq] at h
    rw [← h.1]
    exact ⟨hS1, hn1⟩
  · cases hd1 : b1.m_data with
    | none => simp [memcpy, hd1, hn] at h
    | some cs1 =>
      have hsz := hS1 cs1 hd1
      rw [hd1] at h
      simp only [Option.map_some'] at h
      cases hm : memcpy (some cs1) (some b1.m_len) data len with
      | none => simp [hm] at h
      | some q =>
        cases q with
        | none => simp [memcpy, hn] at hm
        | some cs2 =>
          obtain ⟨hlen2, -⟩ := memcpy_length cs1 cs2 b1.m_len len data hm hn
          simp only [hm, Option.map_some', wxMemoryBuffer.UngetAppendBuf,
            wxMemoryBuffer.SetDataLen, Option.some.injEq, Prod.mk.injEq] at h
          rw [← h.1]
          refine ⟨?_, fun hnone => ?_⟩
          · intro cs3 hcs3
            simp only [Option.some.injEq] at hcs3
            rw [← hcs3, hlen2]
            exact hsz
          · cases hnone

/-- While every allocation succeeds the handle, when not NULL, designates a block of
`m_size` bytes, and it is NULL only at capacity 0. -/
theorem Allocated_inv (b : wxMemoryBuffer) (h : b.Allocated) :
    b.Sized ∧ (b.m_data = none → b.m_size = 0) := by
  induction h with
  | construct size =>
    refine ⟨(construct_inv size true).1, fun hd => ?_⟩
    show size = 0
    by_cases h0 : size = 0
    · exact h0
    · simp [wxMemoryBuffer.construct, malloc, h0] at hd
  | call c b b' r _ hok hrun ih =>
    obtain ⟨hS, hnull⟩ := ih
    cases c with
    | SetBufSize size ok =>
      simp only [wxMemoryBuffer.Call.ok] at hok
      subst hok
      simp only [wxMemoryBuffer.Call.run, wxMemoryBuffer.SetBufSize, Option.some.injEq,
        Prod.mk.injEq] at hrun
      rw [← hrun.1]
      exact ⟨ResizeIfNeeded_sized b size true hS, ResizeIfNeeded_true_null b size hnull⟩
    | SetDataLen len =>
      simp only [wxMemoryBuffer.Call.run, wxMemoryBuffer.SetDataLen, Option.some.injEq,
        Prod.mk.injEq] at hrun
      rw [← hrun.1]
      exact ⟨hS, hnull⟩
    | GetWriteBuf sizeNeeded ok =>
      simp only [wxMemoryBuffer.Call.ok] at hok
      subst hok
      simp only [wxMemoryBuffer.Call.run, wxMemoryBuffer.GetWriteBuf, Option.some.injEq,
        Prod.mk.injEq] at hrun
      rw [← hrun.1]
      exact ⟨ResizeIfNeeded_sized b sizeNeeded true hS,
        ResizeIfNeeded_true_null b sizeNeeded hnull⟩
    | UngetWriteBuf sizeUsed =>
      simp only [wxMemoryBuffer.Call.run, wxMemoryBuffer.UngetWriteBuf,
        wxMemoryBuffer.SetDataLen, Option.some.injEq, Prod.mk.injEq] at hrun
      rw [← hrun.1]
      exact ⟨hS, hnull⟩
    | GetAppendBuf sizeNeeded ok =>
      simp only [wxMemoryBuffer.Call.ok] at hok
      subst hok
      simp only [wxMemoryBuffer.Call.run, wxMemoryBuffer.GetAppendBuf, Option.some.injEq,
        Prod.mk.injEq] at hrun
      rw [← hrun.1]
      exact ⟨ResizeIfNeeded_sized b _ true hS, ResizeIfNeeded_true_null b _ hnull⟩
    | UngetAppendBuf sizeUsed =>
      simp only [wxMemoryBuffer.Call.run, wxMemoryBuffer.UngetAppendBuf,
        wxMemoryBuffer.SetDataLen, Option.some.injEq, Prod.mk.injEq] at hrun
      rw [← hrun.1]
      exact ⟨hS, hnull⟩
    | AppendByte data ok =>
      simp only [wxMemoryBuffer.Call.ok] at hok
      subst hok
      exact AppendByte_keeps b b' data r hS hnull hrun
    | AppendData data len ok =>
      simp only [wxMemoryBuffer.Call.ok] at hok
      subst hok
      exact AppendData_keeps b b' data len r hS hnull hrun
  | written b i v d _ hst ih =>
    obtain ⟨hS, -⟩ := ih
    cases hd : b.m_data with
    | none => simp [store, hd] at hst
    | some cs =>
      by_cases hin : i < cs.length
      · simp only [store, hd, if_pos hin, Option.some.injEq] at hst
        rw [← hst]
        refine ⟨fun cs2 hcs2 => ?_, fun hn => (by cases hn)⟩
        simp only [Option.some.injEq] at hcs2
        rw [← hcs2, List.length_set]
        exact hS cs hd
      · simp [store, hd, hin] at hst
  | copied src _ ih => exact ih
  | copiedFrom src _ _ => exact ⟨fun cs hcs => (by cases hcs), fun _ => rfl⟩
  | assigned self src _ _ _ ih => exact ih
  | assignedFrom self src _ _ _ _ => exact ⟨fun cs hcs => (by cases hcs), fun _ => rfl⟩

/-! ## Runs of `AppendByte` -/

theorem appendEach_cons (b : wxMemoryBuffer) (c : char) (t : List char) (ok : Bool) :
    b.appendEach (c :: t) ok =
      (b.AppendByte c ok).bind
        (fun q => (q.1.appendEach t ok).map (fun p => (p.1, q.2 || p.2))) := by
  cases h : b.AppendByte c ok with
  | none => simp only [wxMemoryBuffer.appendEach, h, Option.none_bind]
  | some q => simp only [wxMemoryBuffer.appendEach, h, Option.some_bind]

theorem appendEach_append (b : wxMemoryBuffer) (l1 l2 : List char) (ok : Bool) :
    b.appendEach (l1 ++ l2) ok =
      (b.appendEach l1 ok).bind
        (fun q => (q.1.appendEach l2 ok).map (fun p => (p.1, q.2 || p.2))) := by
  induction l1 generalizing b with
  | nil =>
    simp only [List.nil_append, wxMemoryBuffer.appendEach, Option.some_bind, Bool.false_or]
    cases b.appendEach l2 ok <;> rfl
  | cons c t ih =>
    rw [List.cons_append, appendEach_cons, appendEach_cons]
    cases b.AppendByte c ok with
    | none => rfl
    | some q =>
      simp only [Option.some_bind, ih q.1]
      cases q.1.appendEach t ok with
      | none => rfl
      | some q1 =>
        simp only [Option.map_some', Option.some_bind, Option.map_map]
        cases q1.1.appendEach l2 ok with
        | none => rfl
        | some q2 => simp [Bool.or_assoc]

/-- A run of `AppendByte` on a buffer that owns a block of `m_size` bytes, without
wrap: it returns, reports nothing, and extends the content by the bytes. -/
theorem appendEach_run (l : List char) :
    ∀ (b : wxMemoryBuffer) (cs : Block char), b.m_data = some cs → cs.length = b.m_size →
      b.m_len ≤ b.m_size → b.m_len + l.length + BLOCK_SIZE < SIZE_MOD →
      ∃ b' cs', b.appendEach l true = some (b', false) ∧ b'.m_data = some cs' ∧
        cs'.length = b'.m_size ∧ b'.m_len = b.m_len + l.length ∧ b'.m_len ≤ b'.m_size ∧
        cs'.take (b.m_len + l.length) = cs.take b.m_len ++ l.map some ∧
        (b.m_len + l.length ≤ b.m_size → b'.m_size = b.m_size) := by
  induction l with
  | nil =>
    intro b cs hd hsz hle _
    exact ⟨b, cs, rfl, hd, hsz, rfl, hle, by simp, fun _ => rfl⟩
  | cons c t ih =>
    intro b cs hd hsz hle hno
    simp only [List.length_cons] at hno
    obtain ⟨b1, cs1, hA, hd1, hsz1, hl1, hle1, htk1, hs1⟩ :=
      AppendByte_step b cs c hd hsz hle (by omega)
    obtain ⟨b2, cs2, hB, hd2, hsz2, hl2, hle2, htk2, hs2⟩ :=
      ih b1 cs1 hd1 hsz1 hle1 (by omega)
    refine ⟨b2, cs2, ?_, hd2, hsz2, ?_, hle2, ?_, ?_⟩
    · simp only [appendEach_cons, hA, hB, Option.some_bind, Option.map_some', Bool.or_self]
    · simp only [List.length_cons]; omega
    · have e : b.m_len + (c :: t).length = b1.m_len + t.length := by
        simp only [List.length_cons]; omega
      rw [e, htk2, hl1, htk1]
      simp
    · intro h
      simp only [List.length_cons] at h
      have hn : ¬ b.m_size < b.m_len + 1 := by omega
      rw [if_neg hn] at hs1
      rw [hs2 (by omega), hs1]

/-! ## The growth schedule of `AppendByte` -/

/-- One `AppendByte` on a buffer that owns a block of `m_size` bytes, where only the
sizes this call computes are required to be `size_t` values. -/
theorem AppendByte_step_fit (b : wxMemoryBuffer) (cs : Block char) (c : char)
    (hd : b.m_data = some cs) (hsz : cs.length = b.m_size) (hle : b.m_len ≤ b.m_size)
    (hlt : b.m_len + 1 < SIZE_MOD)
    (hfit : b.m_size < b.m_len + 1 → b.m_len + 1 + BLOCK_SIZE < SIZE_MOD) :
    ∃ b' cs', b.AppendByte c true = some (b', false) ∧ b'.m_data = some cs' ∧
      cs'.length = b'.m_size ∧ b'.m_len = b.m_len + 1 ∧
      b'.m_size = (if b.m_size < b.m_len + 1 then b.m_len + 1 + BLOCK_SIZE else b.m_size) ∧
      (b.AppendByteReallocs = true ↔ b.m_size < b.m_len + 1) := by
  have h1 : (b.m_len + 1) % SIZE_MOD = b.m_len + 1 := Nat.mod_eq_of_lt hlt
  have hre : (b.AppendByteReallocs = true ↔ b.m_size < b.m_len + 1) := by
    simp [wxMemoryBuffer.AppendByteReallocs, hd, h1]
  by_cases hg : b.m_size < b.m_len + 1
  · obtain ⟨b', cs', h, hd', hsz', hl', -, -, hs'⟩ := AppendByte_step b cs c hd hsz hle (hfit hg)
    exact ⟨b', cs', h, hd', hsz', hl', hs', hre⟩
  · have hin : b.m_len < cs.length := by omega
    refine ⟨⟨some (cs.set b.m_len (some c)), b.m_size, b.m_len + 1⟩, _, ?_, rfl, ?_, rfl, ?_,
      hre⟩
    · simp only [wxMemoryBuffer.AppendByte, wxCHECK_RET, hd, Option.isSome_some, if_true,
        wxMemoryBuffer.ResizeIfNeeded, h1, gt_iff_lt, hg, if_false, store]
      rw [if_pos hin]
      rfl
    · simp only [List.length_set]; exact hsz
    · show b.m_size = _
      rw [if_neg hg]

theorem reallocCount_cons (b : wxMemoryBuffer) (c : char) (t : List char) (ok : Bool)
    (b1 : wxMemoryBuffer) (r : Bool) (h : b.AppendByte c ok = some (b1, r)) :
    b.reallocCount (c :: t) ok
      = (if b.AppendByteReallocs then 1 else 0) + b1.reallocCount t ok := by
  simp only [wxMemoryBuffer.reallocCount, h]

/-- A run of `AppendByte` from a state on the schedule: length `j`, capacity
`1025 * (j / 1025) + 1024`, a block of that many bytes.  The run stays on the
schedule as long as the last capacity is a `size_t`. -/
theorem schedule_run (l : List char) :
    ∀ (b : wxMemoryBuffer) (cs : Block char), b.m_data = some cs → cs.length = b.m_size →
      b.m_size = 1025 * (b.m_len / 1025) + 1024 →
      1025 * ((b.m_len + l.length) / 1025) + 1024 ≤ SIZE_MAX →
      ∃ b' cs', b.appendEach l true = some (b', false) ∧ b'.m_data = some cs' ∧
        cs'.length = b'.m_size ∧ b'.m_len = b.m_len + l.length ∧
        b'.m_size = 1025 * ((b.m_len + l.length) / 1025) + 1024 ∧
        b.reallocCount l true = (b.m_len + l.length) / 1025 - b.m_len / 1025 := by
  have hM : SIZE_MAX = SIZE_MOD - 1 := rfl
  have hpos : 0 < SIZE_MOD := by simp [SIZE_MOD]
  have hB : BLOCK_SIZE = 1024 := rfl
  induction l with
  | nil =>
    intro b cs hd hsz hs _
    exact ⟨b, cs, rfl, hd, hsz, rfl, by simpa using hs, by simp [wxMemoryBuffer.reallocCount]⟩
  | cons c t ih =>
    intro b cs hd hsz hs hfit
    simp only [List.length_cons] at hfit ⊢
    obtain ⟨b1, cs1, hA, hd1, hsz1, hl1, hs1, hre⟩ :=
      AppendByte_step_fit b cs c hd hsz (by omega) (by omega) (by omega)
    have hs1' : b1.m_size = 1025 * (b1.m_len / 1025) + 1024 := by
      rw [hs1, hl1]
      split <;> omega
    have e : b1.m_len + t.length = b.m_len + (t.length + 1) := by omega
    obtain ⟨b2, cs2, hrun, hd2, hsz2, hl2, hs2, hc2⟩ :=
      ih b1 cs1 hd1 hsz1 hs1' (by rw [e]; exact hfit)
    refine ⟨b2, cs2, ?_, hd2, hsz2, ?_, ?_, ?_⟩
    · simp only [appendEach_cons, hA, hrun, Option.some_bind, Option.map_some', Bool.or_self]
    · omega
    · rw [hs2, e]
    · rw [reallocCount_cons b c t true b1 false hA, hc2, e, hl1]
      by_cases hg : b.m_size < b.m_len + 1
      · rw [if_pos (hre.mpr hg)]
        omega
      · have hn : ¬ (b.AppendByteReallocs = true) := fun h => hg (hre.mp h)
        rw [if_neg hn]
        omega

/-! ## Ownership transfer -/

/-- C1. Ownership transfer of the growable buffer: copy construction and
assignment from a source give the destination exactly the data, capacity and
length the source had before the call, and leave the source at (NULL, 0, 0).
Destination and source are two distinct objects. -/
theorem wxMemoryBuffer_transfer (self src : wxMemoryBuffer) :
    ((wxMemoryBuffer.copyConstruct src).1.m_data = src.m_data ∧
     (wxMemoryBuffer.copyConstruct src).1.m_size = src.m_size ∧
     (wxMemoryBuffer.copyConstruct src).1.m_len = src.m_len ∧
     (wxMemoryBuffer.copyConstruct src).2 = { m_data := none, m_size := 0, m_len := 0 }) ∧
    ((wxMemoryBuffer.assign self src).1.m_data = src.m_data ∧
     (wxMemoryBuffer.assign self src).1.m_size = src.m_size ∧
     (wxMemoryBuffer.assign self src).1.m_len = src.m_len ∧
     (wxMemoryBuffer.assign self src).2 = { m_data := none, m_size := 0, m_len := 0 }) :=
  ⟨⟨rfl, rfl, rfl, rfl⟩, ⟨rfl, rfl, rfl, rfl⟩⟩

/-- C2. Ownership transfer of the scalar buffers, narrow and wide: after copy
construction or assignment from a buffer the destination holds the handle (and
so the block) the source held before the call and the source handle is NULL; for
a source built from "hi" the destination reads 'h' at 0 and 'i' at 1. -/
theorem scalar_transfer :
    (∀ self src : wxCharBuffer,
      (wxCharBuffer.copyConstruct src).1.m_str = src.m_str ∧
      (wxCharBuffer.copyConstruct src).2.m_str = none ∧
      (wxCharBuffer.assign self src).1.m_str = src.m_str ∧
      (wxCharBuffer.assign self src).2.m_str = none ∧
      (∀ n, (wxCharBuffer.copyConstruct src).1.index n = src.index n) ∧
      (∀ n, (wxCharBuffer.assign self src).1.index n = src.index n)) ∧
    (∀ self src : wxWCharBuffer,
      (wxWCharBuffer.copyConstruct src).1.m_wcs = src.m_wcs ∧
      (wxWCharBuffer.copyConstruct src).2.m_wcs = none ∧
      (wxWCharBuffer.assign self src).1.m_wcs = src.m_wcs ∧
      (wxWCharBuffer.assign self src).2.m_wcs = none ∧
      (∀ n, (wxWCharBuffer.copyConstruct src).1.index n = src.index n) ∧
      (∀ n, (wxWCharBuffer.assign self src).1.index n = src.index n)) ∧
    (∀ (self : wxCharBuffer) (rest : List char),
      ∃ a, wxCharBuffer.fromString (some (104 :: 105 :: 0 :: rest)) true = some a ∧
        (wxCharBuffer.copyConstruct a).1.index 0 = some 104 ∧
        (wxCharBuffer.copyConstruct a).1.index 1 = some 105 ∧
        (wxCharBuffer.copyConstruct a).2.data = none ∧
        (wxCharBuffer.assign self a).1.index 0 = some 104 ∧
        (wxCharBuffer.assign self a).1.index 1 = some 105 ∧
        (wxCharBuffer.assign self a).2.data = none) ∧
    (∀ (self : wxWCharBuffer) (rest : List wchar_t),
      ∃ a, wxWCharBuffer.fromString (some (104 :: 105 :: 0 :: rest)) true = some a ∧
        (wxWCharBuffer.copyConstruct a).1.index 0 = some 104 ∧
        (wxWCharBuffer.copyConstruct a).1.index 1 = some 105 ∧
        (wxWCharBuffer.copyConstruct a).2.data = none ∧
        (wxWCharBuffer.assign self a).1.index 0 = some 104 ∧
        (wxWCharBuffer.assign self a).1.index 1 = some 105 ∧
        (wxWCharBuffer.assign self a).2.data = none) := by
  refine ⟨fun _ _ => ⟨rfl, rfl, rfl, rfl, fun _ => rfl, fun _ => rfl⟩,
    fun _ _ => ⟨rfl, rfl, rfl, rfl, fun _ => rfl, fun _ => rfl⟩, ?_, ?_⟩
  · intro self rest
    refine ⟨{ m_str := some [some 104, some 105, some 0] }, ?_, rfl, rfl, rfl, rfl, rfl, rfl⟩
    simp [wxCharBuffer.fromString, strdup, List.takeWhile]
  · intro self rest
    refine ⟨{ m_wcs := some [some 104, some 105, some 0] }, ?_, rfl, rfl, rfl, rfl, rfl, rfl⟩
    simp [wxWCharBuffer.fromString, wxWcslen, List.takeWhile, malloc, memcpy, SIZEOF_WCHAR_T,
      SIZE_MOD]

/-! ## Growth -/

/-- C3. Growth law: for a buffer freshly constructed with a non-zero capacity and
every sequence of k bytes, k above the initial capacity included, appending
the bytes one at a time with `AppendByte` (allocations succeeding) returns a
buffer, no call reports a violation, the length is k and the first k bytes of
the block are the appended bytes in order: no byte is lost across the
reallocations.  That the allocations succeed bounds k, which is the
hypothesis `hk`: the k bytes lie in one block, and no allocation of more than
PTRDIFF_MAX bytes succeeds. -/
theorem growth_law (size : Nat) (l : List char) (hsize : size ≠ 0)
    (hk : l.length ≤ PTRDIFF_MAX) :
    ∃ b' cs', (wxMemoryBuffer.construct size true).appendEach l true = some (b', false) ∧
      b'.m_len = l.length ∧ b'.m_data = some cs' ∧ cs'.take l.length = l.map some := by
  have hM : SIZE_MOD = 2 ^ 64 := rfl
  have hP : PTRDIFF_MAX = 2 ^ 63 - 1 := rfl
  have hB : BLOCK_SIZE = 1024 := rfl
  obtain ⟨b1, cs1, hrun, hd1, -, hl1, -, htk, -⟩ :=
    appendEach_run l (wxMemoryBuffer.construct size true) (List.replicate size none)
      (by simp only [wxMemoryBuffer.construct, malloc, if_pos hsize, if_true])
      (by simp only [List.length_replicate, wxMemoryBuffer.construct])
      (Nat.zero_le _)
      (by simp only [wxMemoryBuffer.construct]; omega)
  simp only [wxMemoryBuffer.construct, Nat.zero_add, List.take_zero, List.nil_append]
    at hl1 htk
  exact ⟨b1, cs1, hrun, hl1, hd1, htk⟩

/-- The growth law at capacity 1 and the three bytes "xyz": the second byte already
forces a reallocation. -/
theorem growth_law_witness :
    ∃ b' cs', (wxMemoryBuffer.construct 1 true).appendEach [120, 121, 122] true
        = some (b', false) ∧
      b'.m_len = [(120 : char), 121, 122].length ∧ b'.m_data = some cs' ∧
      cs'.take [(120 : char), 121, 122].length = [(120 : char), 121, 122].map some :=
  growth_law 1 [120, 121, 122] (by decide)
    (by simp only [List.length_cons, List.length_nil, PTRDIFF_MAX]; norm_num)

/-- C4, counterexample. On a buffer of capacity 1024, `SetBufSize(SIZE_MAX)` asks
for more than the capacity, yet the capacity afterwards is 1023: it is not
`SIZE_MAX + BLOCK_SIZE`, and it is smaller than before the call. -/
theorem reserve_rule_wraps :
    (wxMemoryBuffer.construct 1024 true).m_size < SIZE_MAX ∧
    ((wxMemoryBuffer.construct 1024 true).SetBufSize SIZE_MAX true).m_size = 1023 ∧
    ((wxMemoryBuffer.construct 1024 true).SetBufSize SIZE_MAX true).m_size
      ≠ SIZE_MAX + BLOCK_SIZE ∧
    ((wxMemoryBuffer.construct 1024 true).SetBufSize SIZE_MAX true).m_size
      < (wxMemoryBuffer.construct 1024 true).m_size := by
  simp [wxMemoryBuffer.SetBufSize, wxMemoryBuffer.ResizeIfNeeded, wxMemoryBuffer.construct,
    SIZE_MAX, SIZE_MOD, BLOCK_SIZE]

/-- C4 (amended). Reserve growth rule: for every buffer, every outcome of the
allocation and every minCapacity with minCapacity + BLOCK_SIZE ≤ SIZE_MAX,
`ResizeIfNeeded(minCapacity)`, which is all `SetBufSize` does, sets the capacity
to minCapacity + BLOCK_SIZE (BLOCK_SIZE = 1024) when minCapacity exceeds the
capacity and leaves the buffer as it is otherwise; the capacity afterwards is
not smaller than before. -/
theorem reserve_rule (b : wxMemoryBuffer) (minCapacity : Nat) (ok : Bool)
    (hfit : minCapacity + BLOCK_SIZE ≤ SIZE_MAX) :
    (b.m_size < minCapacity →
      (b.ResizeIfNeeded minCapacity ok).m_size = minCapacity + BLOCK_SIZE) ∧
    (minCapacity ≤ b.m_size → b.ResizeIfNeeded minCapacity ok = b) ∧
    b.m_size ≤ (b.ResizeIfNeeded minCapacity ok).m_size ∧
    b.SetBufSize minCapacity ok = b.ResizeIfNeeded minCapacity ok ∧
    BLOCK_SIZE = 1024 := by
  refine ⟨fun h => ?_, fun h => ResizeIfNeeded_noop b minCapacity ok h,
    ResizeIfNeeded_mono b minCapacity ok (Or.inr hfit), rfl, rfl⟩
  rw [ResizeIfNeeded_size b minCapacity ok hfit, if_pos h]

/-- The reserve rule at capacity 4 and 8 with minCapacity 5. -/
theorem reserve_rule_witness :
    5 + BLOCK_SIZE ≤ SIZE_MAX ∧
    ((wxMemoryBuffer.construct 4 true).ResizeIfNeeded 5 true).m_size = 5 + BLOCK_SIZE ∧
    (wxMemoryBuffer.construct 8 true).ResizeIfNeeded 5 false = wxMemoryBuffer.construct 8 true ∧
    (wxMemoryBuffer.construct 4 true).m_size
      ≤ ((wxMemoryBuffer.construct 4 true).ResizeIfNeeded 5 true).m_size :=
  ⟨by simp [BLOCK_SIZE, SIZE_MAX, SIZE_MOD],
   (reserve_rule (wxMemoryBuffer.construct 4 true) 5 true
      (by simp [BLOCK_SIZE, SIZE_MAX, SIZE_MOD])).1 (by decide),
   (reserve_rule (wxMemoryBuffer.construct 8 true) 5 false
      (by simp [BLOCK_SIZE, SIZE_MAX, SIZE_MOD])).2.1 (by decide),
   (reserve_rule (wxMemoryBuffer.construct 4 true) 5 true
      (by simp [BLOCK_SIZE, SIZE_MAX, SIZE_MOD])).2.2.1⟩

/-! ## Invariants -/

/-- C5, counterexample. On a constructed buffer of capacity 4, `SetDataLen(5)`
reports the violated assertion and sets the length to 5 all the same: a
reachable state with length above capacity. -/
theorem length_invariant_broken :
    wxMemoryBuffer.Reachable ((wxMemoryBuffer.construct 4 true).SetDataLen 5).1 ∧
    ((wxMemoryBuffer.construct 4 true).SetDataLen 5).2 = true ∧
    ((wxMemoryBuffer.construct 4 true).SetDataLen 5).1.m_len = 5 ∧
    ((wxMemoryBuffer.construct 4 true).SetDataLen 5).1.m_size = 4 ∧
    ¬ (((wxMemoryBuffer.construct 4 true).SetDataLen 5).1.m_len
        ≤ ((wxMemoryBuffer.construct 4 true).SetDataLen 5).1.m_size) := by
  refine ⟨?_, by decide, rfl, rfl, by decide⟩
  exact wxMemoryBuffer.ReachableBy.call (wxMemoryBuffer.Call.SetDataLen 5)
    (wxMemoryBuffer.construct 4 true) _ true
    (wxMemoryBuffer.ReachableBy.construct 4 true) trivial rfl

/-- C5 (amended). Length invariant: `m_len ≤ m_size` holds after construction and
in every state reached from constructed buffers by calls within the contract
and by transfers in and out: `SetDataLen`, `UngetWriteBuf` and `UngetAppendBuf`
with their assertion satisfied, `SetBufSize`, `GetWriteBuf` and `GetAppendBuf`
with a growth target that is a `size_t`, and `AppendByte` and `AppendData` with
any argument and any allocation outcome. -/
theorem length_invariant (b : wxMemoryBuffer) (h : b.ReachableWithin) : b.m_len ≤ b.m_size :=
  (ReachableWithin_inv b h).2

/-- The length invariant at the state reached by `SetBufSize(5)` then
`SetDataLen(3)` from a constructed buffer of capacity 4. -/
theorem length_invariant_witness :
    (((wxMemoryBuffer.construct 4 true).SetBufSize 5 true).SetDataLen 3).1.ReachableWithin ∧
    (((wxMemoryBuffer.construct 4 true).SetBufSize 5 true).SetDataLen 3).1.m_len
      ≤ (((wxMemoryBuffer.construct 4 true).SetBufSize 5 true).SetDataLen 3).1.m_size :=
  have hr : (((wxMemoryBuffer.construct 4 true).SetBufSize 5 true).SetDataLen 3).1.ReachableWithin :=
    wxMemoryBuffer.ReachableBy.call (wxMemoryBuffer.Call.SetDataLen 3)
      ((wxMemoryBuffer.construct 4 true).SetBufSize 5 true) _ false
      (wxMemoryBuffer.ReachableBy.call (wxMemoryBuffer.Call.SetBufSize 5 true)
        (wxMemoryBuffer.construct 4 true) _ false
        (wxMemoryBuffer.ReachableBy.construct 4 true)
        (Or.inr (by simp [BLOCK_SIZE, SIZE_MAX, SIZE_MOD])) rfl)
      (by show 3 ≤ 1029; decide) rfl
  ⟨hr, length_invariant _ hr⟩

/-- C6, evaluation at the failing inputs. A construction with size 2^62 whose
allocation fails leaves a NULL handle with capacity 2^62; on a default-sized
buffer, `SetBufSize(2^62)` whose reallocation fails leaves a NULL handle with
capacity 2^62 + BLOCK_SIZE.  Both states are reachable and in neither is the
handle NULL exactly when the capacity is 0. -/
theorem null_data_with_capacity :
    (wxMemoryBuffer.construct (2 ^ 62) false).Reachable ∧
    (wxMemoryBuffer.construct (2 ^ 62) false).m_data = none ∧
    (wxMemoryBuffer.construct (2 ^ 62) false).m_size = 2 ^ 62 ∧
    ((wxMemoryBuffer.construct 1024 true).SetBufSize (2 ^ 62) false).Reachable ∧
    (wxMemoryBuffer.construct 1024 true).m_data ≠ none ∧
    ((wxMemoryBuffer.construct 1024 true).SetBufSize (2 ^ 62) false).m_data = none ∧
    ((wxMemoryBuffer.construct 1024 true).SetBufSize (2 ^ 62) false).m_size = 2 ^ 62 + 1024 ∧
    ¬ (((wxMemoryBuffer.construct 1024 true).SetBufSize (2 ^ 62) false).m_data = none ↔
        ((wxMemoryBuffer.construct 1024 true).SetBufSize (2 ^ 62) false).m_size = 0) := by
  have hd : ((wxMemoryBuffer.construct 1024 true).SetBufSize (2 ^ 62) false).m_data = none := by
    simp [wxMemoryBuffer.SetBufSize, wxMemoryBuffer.ResizeIfNeeded, wxMemoryBuffer.construct,
      realloc]
  have hs : ((wxMemoryBuffer.construct 1024 true).SetBufSize (2 ^ 62) false).m_size
      = 2 ^ 62 + 1024 := by
    simp [wxMemoryBuffer.SetBufSize, wxMemoryBuffer.ResizeIfNeeded, wxMemoryBuffer.construct,
      SIZE_MOD, BLOCK_SIZE]
  refine ⟨wxMemoryBuffer.ReachableBy.construct _ false, ?_, rfl, ?_, ?_, hd, hs, ?_⟩
  · simp [wxMemoryBuffer.construct, malloc]
  · exact wxMemoryBuffer.ReachableBy.call (wxMemoryBuffer.Call.SetBufSize (2 ^ 62) false)
      (wxMemoryBuffer.construct 1024 true) _ false
      (wxMemoryBuffer.ReachableBy.construct 1024 true) trivial rfl
  · show (some (List.replicate 1024 none) : Ptr char) ≠ none
    exact Option.some_ne_none _
  · rw [hs]
    intro h
    have := h.1 hd
    norm_num at this

/-- C7, evaluation at the failing input. On a default-constructed buffer (capacity
1024) each of `SetBufSize(SIZE_MAX)`, `GetWriteBuf(SIZE_MAX)` and
`GetAppendBuf(SIZE_MAX)` leaves the capacity at 1023, below the capacity before
the call: the growth target `SIZE_MAX + BLOCK_SIZE` wraps. -/
theorem capacity_decreases :
    (wxMemoryBuffer.construct BLOCK_SIZE true).m_size = 1024 ∧
    ((wxMemoryBuffer.construct BLOCK_SIZE true).SetBufSize SIZE_MAX true).m_size = 1023 ∧
    ((wxMemoryBuffer.construct BLOCK_SIZE true).GetWriteBuf SIZE_MAX true).1.m_size = 1023 ∧
    ((wxMemoryBuffer.construct BLOCK_SIZE true).GetAppendBuf SIZE_MAX true).1.m_size = 1023 ∧
    ((wxMemoryBuffer.construct BLOCK_SIZE true).GetWriteBuf SIZE_MAX false).1.m_size = 1023 := by
  simp [wxMemoryBuffer.SetBufSize, wxMemoryBuffer.GetWriteBuf, wxMemoryBuffer.GetAppendBuf,
    wxMemoryBuffer.ResizeIfNeeded, wxMemoryBuffer.construct, SIZE_MAX, SIZE_MOD, BLOCK_SIZE]

/-! ## Appending -/

/-- C8. `AppendData` appends: for every buffer in a state reached while every
allocation succeeds, with length L ≤ capacity, and every byte sequence s of n
bytes, `AppendData(s, n)` (allocation succeeding) returns a buffer and reports
no violation; the length is L + n, the first L bytes are unchanged, bytes
L..L+n-1 are s, and the capacity is at least L + n.  That the allocation
succeeds bounds L + n, which is the hypothesis `hfit`: the L + n bytes lie in
one block, and no allocation of more than PTRDIFF_MAX bytes succeeds. -/
theorem appendData_appends (b : wxMemoryBuffer) (s : List char) (hb : b.Allocated)
    (hle : b.m_len ≤ b.m_size) (hfit : b.m_len + s.length ≤ PTRDIFF_MAX) :
    ∃ b', b.AppendData s s.length true = some (b', false) ∧
      b'.m_len = b.m_len + s.length ∧
      b'.cells.take b.m_len = b.cells.take b.m_len ∧
      (b'.cells.drop b.m_len).take s.length = s.map some ∧
      b.m_len + s.length ≤ b'.m_size := by
  have hX : SIZE_MAX = 2 ^ 64 - 1 := rfl
  have hP : PTRDIFF_MAX = 2 ^ 63 - 1 := rfl
  have hB : BLOCK_SIZE = 1024 := rfl
  obtain ⟨hS, hnull⟩ := Allocated_inv b hb
  obtain ⟨b', h1, h2, h3, h4, h5, -⟩ := AppendData_run b s hS hnull hle (by omega)
  exact ⟨b', h1, h2, h3, h4, h5⟩

/-- The scenario of the spec: capacity 4, `AppendData("AB", 2)`, then
`AppendData("CDE", 3)`, which has to grow the block. -/
theorem appendData_appends_witness :
    (wxMemoryBuffer.construct 4 true).AppendData [65, 66] 2 true
      = some (⟨some [some 65, some 66, none, none], 4, 2⟩, false) ∧
    ∃ b2, (⟨some [some 65, some 66, none, none], 4, 2⟩ : wxMemoryBuffer).AppendData
        [67, 68, 69] 3 true = some (b2, false) ∧
      b2.m_len = 5 ∧
      b2.cells.take 5 = [some 65, some 66, some 67, some 68, some 69] ∧
      5 ≤ b2.m_size := by
  have hAB : (wxMemoryBuffer.construct 4 true).AppendData [65, 66] 2 true
      = some (⟨some [some 65, some 66, none, none], 4, 2⟩, false) := by decide
  have hb : (⟨some [some 65, some 66, none, none], 4, 2⟩ : wxMemoryBuffer).Allocated :=
    wxMemoryBuffer.Allocated.call (wxMemoryBuffer.Call.AppendData [65, 66] 2 true)
      (wxMemoryBuffer.construct 4 true) _ false (wxMemoryBuffer.Allocated.construct 4) rfl hAB
  refine ⟨hAB, ?_⟩
  obtain ⟨b2, h1, h2, h3, h4, h5⟩ :=
    appendData_appends ⟨some [some 65, some 66, none, none], 4, 2⟩ [67, 68, 69]
      hb (by decide) (by simp [PTRDIFF_MAX])
  refine ⟨b2, h1, h2, ?_, h5⟩
  have e := List.take_add b2.cells 2 3
  rw [show (⟨some [some 65, some 66, none, none], 4, 2⟩ : wxMemoryBuffer).m_len = 2 from rfl]
    at h3 h4
  rw [show ([67, 68, 69] : List char).length = 3 from rfl] at h4
  rw [show (5 : Nat) = 2 + 3 from rfl, e, h3, h4]
  rfl

/-- C9, counterexample. A buffer constructed with capacity 0 has a NULL handle, so
`AppendByte('x')` fails its check and returns at once: the violation is
reported, the capacity stays 0 and the length stays 0, not 1. -/
theorem appendByte_on_empty :
    (wxMemoryBuffer.construct 0 true).AppendByte 120 true = some (⟨none, 0, 0⟩, true) ∧
    ¬ ∃ b' r, (wxMemoryBuffer.construct 0 true).AppendByte 120 true = some (b', r) ∧
        1 ≤ b'.m_size ∧ b'.m_len = 1 := by
  refine ⟨rfl, ?_⟩
  rintro ⟨b', r, h, -, hl⟩
  have h' : (wxMemoryBuffer.construct 0 true).AppendByte 120 true
      = some (⟨none, 0, 0⟩, true) := rfl
  rw [h'] at h
  simp only [Option.some.injEq, Prod.mk.injEq] at h
  rw [← h.1] at hl
  cases hl

/-- C9 (amended). For every byte x and every allocation outcome, constructing a
buffer with capacity 0 gives (NULL, 0, 0), and `AppendByte(x)` on it is
rejected by the check: the violation is reported and the buffer stays at
(NULL, 0, 0), with capacity 0, length 0 and no content. -/
theorem appendByte_on_empty_rejected (x : char) (okc ok : Bool) :
    wxMemoryBuffer.construct 0 okc = ⟨none, 0, 0⟩ ∧
    (wxMemoryBuffer.construct 0 okc).AppendByte x ok = some (⟨none, 0, 0⟩, true) :=
  ⟨rfl, rfl⟩

/-- C10. The check of `AppendByte`: on a buffer whose handle is NULL the call
reports a violation and leaves data, capacity and length as they are, with no
store through the handle; on a buffer whose handle is not NULL the call never
reports a violation, and when the handle designates a block of `m_size` bytes
with `m_len ≤ m_size` and no wrap of the growth target, the call (allocation
succeeding) returns a buffer without a report. -/
theorem appendByte_check (b : wxMemoryBuffer) (d : char) (ok : Bool) :
    (b.m_data = none → b.AppendByte d ok = some (b, true)) ∧
    (b.m_data ≠ none → ∀ b', b.AppendByte d ok ≠ some (b', true)) ∧
    (∀ cs, b.m_data = some cs → cs.length = b.m_size → b.m_len ≤ b.m_size →
      b.m_len + 1 + BLOCK_SIZE ≤ SIZE_MAX → ∃ b', b.AppendByte d true = some (b', false)) := by
  refine ⟨fun h => ?_, fun h b' hb' => ?_, fun cs hd hsz hle hfit => ?_⟩
  · simp only [wxMemoryBuffer.AppendByte, wxCHECK_RET, h, Option.isSome_none,
      Bool.false_eq_true, if_false]
  · cases hd : b.m_data with
    | none => exact h hd
    | some cs =>
      simp only [wxMemoryBuffer.AppendByte, wxCHECK_RET, hd, Option.isSome_some, if_true] at hb'
      cases hst : store (b.ResizeIfNeeded ((b.m_len + 1) % SIZE_MOD) ok).m_data
          (b.ResizeIfNeeded ((b.m_len + 1) % SIZE_MOD) ok).m_len d with
      | none => simp [hst] at hb'
      | some q => simp [hst] at hb'
  · have hM : SIZE_MAX = SIZE_MOD - 1 := rfl
    have hpos : 0 < SIZE_MOD := by simp [SIZE_MOD]
    obtain ⟨b', _, h, _⟩ := AppendByte_step b cs d hd hsz hle (by omega)
    exact ⟨b', h⟩

/-- The check at a NULL handle and at a constructed buffer of capacity 4. -/
theorem appendByte_check_witness :
    (⟨none, 7, 3⟩ : wxMemoryBuffer).AppendByte 120 true = some (⟨none, 7, 3⟩, true) ∧
    (∀ b', (wxMemoryBuffer.construct 4 true).AppendByte 120 false ≠ some (b', true)) ∧
    (∃ b', (wxMemoryBuffer.construct 4 true).AppendByte 120 true = some (b', false)) :=
  ⟨(appendByte_check ⟨none, 7, 3⟩ 120 true).1 rfl,
   (appendByte_check (wxMemoryBuffer.construct 4 true) 120 false).2.1 (by decide),
   (appendByte_check (wxMemoryBuffer.construct 4 true) 120 true).2.2
     [none, none, none, none] rfl rfl (by decide) (by simp [BLOCK_SIZE, SIZE_MAX, SIZE_MOD,
       wxMemoryBuffer.construct])⟩

/-! ## The two-phase protocols -/

/-- C11, counterexample. On a default-constructed buffer `GetWriteBuf(SIZE_MAX)`
leaves the capacity at 1023, below the size asked for, and the following
`UngetWriteBuf(2000)`, with 2000 ≤ SIZE_MAX, violates the assertion of
`SetDataLen`; and `GetWriteBuf(2^62)` whose reallocation fails returns NULL,
not the start of a block. -/
theorem write_protocol_fails :
    ((wxMemoryBuffer.constructDefault true).GetWriteBuf SIZE_MAX true).1.m_size = 1023 ∧
    ¬ (SIZE_MAX ≤ ((wxMemoryBuffer.constructDefault true).GetWriteBuf SIZE_MAX true).1.m_size) ∧
    2000 ≤ SIZE_MAX ∧
    (((wxMemoryBuffer.constructDefault true).GetWriteBuf SIZE_MAX true).1.UngetWriteBuf 2000).2
      = true ∧
    ((wxMemoryBuffer.constructDefault true).GetWriteBuf (2 ^ 62) false).2 = none ∧
    ((wxMemoryBuffer.constructDefault true).GetWriteBuf (2 ^ 62) false).1.m_data = none := by
  have h1 : ((wxMemoryBuffer.constructDefault true).GetWriteBuf SIZE_MAX true).1.m_size
      = 1023 := by
    simp [wxMemoryBuffer.GetWriteBuf, wxMemoryBuffer.ResizeIfNeeded,
      wxMemoryBuffer.constructDefault, wxMemoryBuffer.construct, SIZE_MAX, SIZE_MOD, BLOCK_SIZE]
  have h2 : ((wxMemoryBuffer.constructDefault true).GetWriteBuf (2 ^ 62) false).1.m_data
      = none := by
    simp [wxMemoryBuffer.GetWriteBuf, wxMemoryBuffer.ResizeIfNeeded,
      wxMemoryBuffer.constructDefault, wxMemoryBuffer.construct, BLOCK_SIZE, realloc]
  refine ⟨h1, ?_, ?_, ?_, ?_, h2⟩
  · rw [h1]; simp [SIZE_MAX, SIZE_MOD]
  · simp [SIZE_MAX, SIZE_MOD]
  · simp only [wxMemoryBuffer.UngetWriteBuf, wxMemoryBuffer.SetDataLen, wxASSERT, h1]
    decide
  · show Option.map (fun _ => 0)
      ((wxMemoryBuffer.constructDefault true).GetWriteBuf (2 ^ 62) false).1.m_data = none
    rw [h2]; rfl

/-- C11 (amended). Write protocol: for every buffer and every sizeNeeded that is at
most the capacity or has sizeNeeded + BLOCK_SIZE ≤ SIZE_MAX (allocation
succeeding), `GetWriteBuf(sizeNeeded)` leaves capacity ≥ sizeNeeded, does not
change the length and returns the handle `m_data`, offset 0 of the block; the
handle is not NULL when sizeNeeded > 0 and the buffer had NULL only at capacity
0.  A following `UngetWriteBuf(sizeUsed)` with sizeUsed ≤ sizeNeeded sets the
length to sizeUsed and reports no violation. -/
theorem write_protocol (b : wxMemoryBuffer) (sizeNeeded : Nat) (hfit : b.Fits sizeNeeded) :
    sizeNeeded ≤ (b.GetWriteBuf sizeNeeded true).1.m_size ∧
    (b.GetWriteBuf sizeNeeded true).1.m_len = b.m_len ∧
    (b.GetWriteBuf sizeNeeded true).2 = (b.GetWriteBuf sizeNeeded true).1.m_data.map (fun _ => 0) ∧
    ((b.m_data = none → b.m_size = 0) → 0 < sizeNeeded →
      (b.GetWriteBuf sizeNeeded true).2 = some 0) ∧
    (∀ sizeUsed, sizeUsed ≤ sizeNeeded →
      ((b.GetWriteBuf sizeNeeded true).1.UngetWriteBuf sizeUsed).1.m_len = sizeUsed ∧
      ((b.GetWriteBuf sizeNeeded true).1.UngetWriteBuf sizeUsed).1.m_size
        = (b.GetWriteBuf sizeNeeded true).1.m_size ∧
      ((b.GetWriteBuf sizeNeeded true).1.UngetWriteBuf sizeUsed).1.m_data
        = (b.GetWriteBuf sizeNeeded true).1.m_data ∧
      ((b.GetWriteBuf sizeNeeded true).1.UngetWriteBuf sizeUsed).2 = false) := by
  have hge := ResizeIfNeeded_ge b sizeNeeded true hfit
  refine ⟨hge, ResizeIfNeeded_len b sizeNeeded true, rfl, fun hnull hpos => ?_,
    fun sizeUsed hu => ⟨rfl, rfl, rfl, ?_⟩⟩
  · show Option.map (fun _ => 0) (b.ResizeIfNeeded sizeNeeded true).m_data = some 0
    cases hd : (b.ResizeIfNeeded sizeNeeded true).m_data with
    | some cs => rfl
    | none =>
      exfalso
      by_cases hle : sizeNeeded ≤ b.m_size
      · rw [ResizeIfNeeded_noop b sizeNeeded true hle] at hd
        have := hnull hd
        omega
      · simp [wxMemoryBuffer.ResizeIfNeeded, Nat.lt_of_not_le hle, realloc] at hd
        cases hb : b.m_data <;> simp [hb] at hd
  · show wxASSERT (decide (sizeUsed ≤ (b.ResizeIfNeeded sizeNeeded true).m_size)) = false
    have : sizeUsed ≤ (b.ResizeIfNeeded sizeNeeded true).m_size := Nat.le_trans hu hge
    simp [wxASSERT, this]

/-- The write protocol on a constructed buffer of capacity 4 with sizeNeeded 10 and
sizeUsed 7. -/
theorem write_protocol_witness :
    10 ≤ ((wxMemoryBuffer.construct 4 true).GetWriteBuf 10 true).1.m_size ∧
    ((wxMemoryBuffer.construct 4 true).GetWriteBuf 10 true).2 = some 0 ∧
    (((wxMemoryBuffer.construct 4 true).GetWriteBuf 10 true).1.UngetWriteBuf 7).1.m_len = 7 ∧
    (((wxMemoryBuffer.construct 4 true).GetWriteBuf 10 true).1.UngetWriteBuf 7).2 = false :=
  have h := write_protocol (wxMemoryBuffer.construct 4 true) 10
    (Or.inr (by simp [BLOCK_SIZE, SIZE_MAX, SIZE_MOD]))
  ⟨h.1, h.2.2.2.1 (fun hd => by cases hd) (by decide), (h.2.2.2.2 7 (by decide)).1,
    (h.2.2.2.2 7 (by decide)).2.2.2⟩

/-- C12, counterexample. On a default-constructed buffer (capacity 1024):
`GetAppendBuf(SIZE_MAX)` at length 0 leaves the capacity at 1023; at length 5
the sum `m_len + sizeNeeded` itself wraps to 4, nothing is reserved and the
capacity stays 1024; and `GetAppendBuf(2^62)` whose reallocation fails at
length 5 returns NULL and leaves no block, so the first 5 bytes are gone. -/
theorem append_protocol_fails :
    ((wxMemoryBuffer.constructDefault true).GetAppendBuf SIZE_MAX true).1.m_size = 1023 ∧
    ((wxMemoryBuffer.constructDefault true).SetDataLen 5).1.m_len = 5 ∧
    ((wxMemoryBuffer.constructDefault true).SetDataLen 5).2 = false ∧
    (((wxMemoryBuffer.constructDefault true).SetDataLen 5).1.GetAppendBuf SIZE_MAX true).1.m_size
      = 1024 ∧
    ¬ (5 + SIZE_MAX ≤ 1024) ∧
    ((wxMemoryBuffer.constructDefault true).SetDataLen 5).1.m_data ≠ none ∧
    (((wxMemoryBuffer.constructDefault true).SetDataLen 5).1.GetAppendBuf (2 ^ 62) false).2
      = none ∧
    (((wxMemoryBuffer.constructDefault true).SetDataLen 5).1.GetAppendBuf (2 ^ 62) false).1.m_data
      = none := by
  have h2 : (((wxMemoryBuffer.constructDefault true).SetDataLen 5).1.GetAppendBuf (2 ^ 62)
      false).1.m_data = none := by
    simp [wxMemoryBuffer.GetAppendBuf, wxMemoryBuffer.ResizeIfNeeded, wxMemoryBuffer.SetDataLen,
      wxMemoryBuffer.constructDefault, wxMemoryBuffer.construct, BLOCK_SIZE, SIZE_MOD, realloc]
  refine ⟨?_, rfl, ?_, ?_, ?_, ?_, ?_, h2⟩
  · simp [wxMemoryBuffer.GetAppendBuf, wxMemoryBuffer.ResizeIfNeeded,
      wxMemoryBuffer.constructDefault, wxMemoryBuffer.construct, SIZE_MAX, SIZE_MOD, BLOCK_SIZE]
  · simp [wxMemoryBuffer.SetDataLen, wxASSERT, wxMemoryBuffer.constructDefault,
      wxMemoryBuffer.construct, BLOCK_SIZE]
  · simp [wxMemoryBuffer.GetAppendBuf, wxMemoryBuffer.ResizeIfNeeded, wxMemoryBuffer.SetDataLen,
      wxMemoryBuffer.constructDefault, wxMemoryBuffer.construct, SIZE_MAX, SIZE_MOD, BLOCK_SIZE]
  · simp [SIZE_MAX, SIZE_MOD]
  · show (some (List.replicate 1024 none) : Ptr char) ≠ none
    exact Option.some_ne_none _
  · have hp : ∀ (b : wxMemoryBuffer) (n : Nat) (ok : Bool), (b.GetAppendBuf n ok).2
        = (b.GetAppendBuf n ok).1.m_data.map (fun _ => (b.GetAppendBuf n ok).1.m_len) :=
      fun _ _ _ => rfl
    rw [hp, h2]; rfl

/-- C12 (amended). Append protocol: for every buffer whose handle designates a block
of `m_size` bytes (NULL only at capacity 0), with length L ≤ capacity, and every
sizeNeeded with L + sizeNeeded + BLOCK_SIZE ≤ SIZE_MAX (allocation succeeding),
`GetAppendBuf(sizeNeeded)` leaves capacity ≥ L + sizeNeeded, does not change the
length or the first L bytes and returns the handle advanced by L, offset L of
the block (not NULL when sizeNeeded > 0).  A following
`UngetAppendBuf(sizeUsed)` with sizeUsed ≤ sizeNeeded sets the length to
L + sizeUsed and reports no violation. -/
theorem append_protocol (b : wxMemoryBuffer) (sizeNeeded : Nat) (hS : b.Sized)
    (hnull : b.m_data = none → b.m_size = 0) (hle : b.m_len ≤ b.m_size)
    (hfit : b.m_len + sizeNeeded + BLOCK_SIZE ≤ SIZE_MAX) :
    b.m_len + sizeNeeded ≤ (b.GetAppendBuf sizeNeeded true).1.m_size ∧
    (b.GetAppendBuf sizeNeeded true).1.m_len = b.m_len ∧
    (b.GetAppendBuf sizeNeeded true).1.cells.take b.m_len = b.cells.take b.m_len ∧
    (b.GetAppendBuf sizeNeeded true).2
      = (b.GetAppendBuf sizeNeeded true).1.m_data.map (fun _ => b.m_len) ∧
    (0 < sizeNeeded → (b.GetAppendBuf sizeNeeded true).2 = some b.m_len) ∧
    (∀ sizeUsed, sizeUsed ≤ sizeNeeded →
      ((b.GetAppendBuf sizeNeeded true).1.UngetAppendBuf sizeUsed).1.m_len
        = b.m_len + sizeUsed ∧
      ((b.GetAppendBuf sizeNeeded true).1.UngetAppendBuf sizeUsed).1.m_size
        = (b.GetAppendBuf sizeNeeded true).1.m_size ∧
      ((b.GetAppendBuf sizeNeeded true).1.UngetAppendBuf sizeUsed).1.m_data
        = (b.GetAppendBuf sizeNeeded true).1.m_data ∧
      ((b.GetAppendBuf sizeNeeded true).1.UngetAppendBuf sizeUsed).2 = false) := by
  have hM : SIZE_MAX = SIZE_MOD - 1 := rfl
  have hpos : 0 < SIZE_MOD := by simp [SIZE_MOD]
  have hmod : (b.m_len + sizeNeeded) % SIZE_MOD = b.m_len + sizeNeeded :=
    Nat.mod_eq_of_lt (by omega)
  have hr : (b.GetAppendBuf sizeNeeded true).1 = b.ResizeIfNeeded (b.m_len + sizeNeeded) true := by
    simp only [wxMemoryBuffer.GetAppendBuf, hmod]
  have hp : (b.GetAppendBuf sizeNeeded true).2
      = (b.GetAppendBuf sizeNeeded true).1.m_data.map
          (fun _ => (b.GetAppendBuf sizeNeeded true).1.m_len) := rfl
  have hF : b.Fits (b.m_len + sizeNeeded) := Or.inr hfit
  have hge := ResizeIfNeeded_ge b (b.m_len + sizeNeeded) true hF
  have hlen := ResizeIfNeeded_len b (b.m_len + sizeNeeded) true
  obtain ⟨-, -, htake, hnn⟩ :=
    ResizeIfNeeded_keeps b (b.m_len + sizeNeeded) b.m_len hS hnull hle hF
  rw [← hr] at hge hlen htake hnn
  refine ⟨hge, hlen, htake, ?_, fun hn => ?_, fun sizeUsed hu => ?_⟩
  · rw [hp, hlen]
  · rw [hp, hlen]
    cases hd : (b.GetAppendBuf sizeNeeded true).1.m_data with
    | none => exact absurd hd (hnn (by omega))
    | some cs => rfl
  · have hmu : (b.m_len + sizeUsed) % SIZE_MOD = b.m_len + sizeUsed :=
      Nat.mod_eq_of_lt (by omega)
    have hle' : b.m_len + sizeUsed ≤ (b.GetAppendBuf sizeNeeded true).1.m_size := by omega
    refine ⟨?_, rfl, rfl, ?_⟩
    · show ((b.GetAppendBuf sizeNeeded true).1.m_len + sizeUsed) % SIZE_MOD = _
      rw [hlen, hmu]
    · show wxASSERT (decide (((b.GetAppendBuf sizeNeeded true).1.m_len + sizeUsed) % SIZE_MOD
        ≤ (b.GetAppendBuf sizeNeeded true).1.m_size)) = false
      rw [hlen, hmu]
      simp [wxASSERT, hle']

/-- The append protocol on the buffer holding "AB" in a block of 4 bytes, with
sizeNeeded 3 and sizeUsed 3. -/
theorem append_protocol_witness :
    2 + 3 ≤ ((⟨some [some 65, some 66, none, none], 4, 2⟩ : wxMemoryBuffer).GetAppendBuf 3
      true).1.m_size ∧
    ((⟨some [some 65, some 66, none, none], 4, 2⟩ : wxMemoryBuffer).GetAppendBuf 3 true).2
      = some 2 ∧
    (((⟨some [some 65, some 66, none, none], 4, 2⟩ : wxMemoryBuffer).GetAppendBuf 3
      true).1.UngetAppendBuf 3).1.m_len = 2 + 3 ∧
    (((⟨some [some 65, some 66, none, none], 4, 2⟩ : wxMemoryBuffer).GetAppendBuf 3
      true).1.UngetAppendBuf 3).2 = false :=
  have h := append_protocol ⟨some [some 65, some 66, none, none], 4, 2⟩ 3
    (fun cs hd => by cases hd; rfl) (fun hd => by cases hd) (by decide)
    (by simp [BLOCK_SIZE, SIZE_MAX, SIZE_MOD])
  ⟨h.1, h.2.2.2.2.1 (by decide), (h.2.2.2.2.2 3 (by decide)).1,
    (h.2.2.2.2.2 3 (by decide)).2.2.2⟩

/-! ## Construction of the scalar buffers -/

/-- C13. Length constructor of the scalar buffers, narrow and wide: for every n
whose byte count `(n + 1) * sizeof(unit)` is a `size_t` (allocation
succeeding) the constructor returns a buffer that owns a block of n + 1
units, the unit at offset n is the zero terminator, and `operator[](n)` is 0. -/
theorem length_constructor (n : Nat) :
    ((n + 1) * SIZEOF_CHAR ≤ SIZE_MAX →
      ∃ b cs, wxCharBuffer.fromLength n true = some b ∧ b.m_str = some cs ∧
        cs.length = n + 1 ∧ cs[n]? = some (some 0) ∧ b.index n = some 0) ∧
    ((n + 1) * SIZEOF_WCHAR_T ≤ SIZE_MAX →
      ∃ b cs, wxWCharBuffer.fromLength n true = some b ∧ b.m_wcs = some cs ∧
        cs.length = n + 1 ∧ cs[n]? = some (some 0) ∧ b.index n = some 0) := by
  have hM : SIZE_MAX = SIZE_MOD - 1 := rfl
  have hpos : 0 < SIZE_MOD := by simp [SIZE_MOD]
  constructor
  · intro h
    have h1 : SIZEOF_CHAR = 1 := rfl
    have hsz : ((n + 1) * SIZEOF_CHAR) % SIZE_MOD / SIZEOF_CHAR = n + 1 := by
      rw [Nat.mod_eq_of_lt (by omega), h1, Nat.mul_one, Nat.div_one]
    obtain ⟨cs, hst, hlen, hget, hload⟩ := store_malloc_last n (0 : char)
    refine ⟨{ m_str := some cs }, cs, ?_, rfl, hlen, hget, hload⟩
    simp only [wxCharBuffer.fromLength, hsz, hst, Option.map_some']
  · intro h
    have h4 : SIZEOF_WCHAR_T = 4 := rfl
    have hsz : ((n + 1) * SIZEOF_WCHAR_T) % SIZE_MOD / SIZEOF_WCHAR_T = n + 1 := by
      rw [Nat.mod_eq_of_lt (by omega), h4, Nat.mul_div_cancel _ (by decide)]
    obtain ⟨cs, hst, hlen, hget, hload⟩ := store_malloc_last n (0 : wchar_t)
    refine ⟨{ m_wcs := some cs }, cs, ?_, rfl, hlen, hget, hload⟩
    simp only [wxWCharBuffer.fromLength, hsz, hst, Option.map_some']

/-- The length constructors at n = 2. -/
theorem length_constructor_witness :
    (∃ b cs, wxCharBuffer.fromLength 2 true = some b ∧ b.m_str = some cs ∧
        cs.length = 2 + 1 ∧ cs[2]? = some (some 0) ∧ b.index 2 = some 0) ∧
    (∃ b cs, wxWCharBuffer.fromLength 2 true = some b ∧ b.m_wcs = some cs ∧
        cs.length = 2 + 1 ∧ cs[2]? = some (some 0) ∧ b.index 2 = some 0) :=
  ⟨(length_constructor 2).1 (by simp [SIZEOF_CHAR, SIZE_MAX, SIZE_MOD]),
   (length_constructor 2).2 (by simp [SIZEOF_WCHAR_T, SIZE_MAX, SIZE_MOD])⟩

/-- C14. Sequence constructor of the scalar buffers, narrow and wide: from NULL it
yields the NULL handle; from a sequence in memory whose first terminator is at
index len (allocation succeeding) it yields a buffer that owns a block of
len + 1 units, the units before the terminator and then the terminator, so
`operator[](i)` is the unit i of the sequence for i < len and
`operator[](len)` is 0, whatever follows the first terminator.  That the wide
sequence is in memory is the hypothesis that its byte count up to and
including the terminator, `(len + 1) * sizeof(wchar_t)`, is a `size_t`, as
the size of every object is. -/
theorem sequence_constructor :
    (∀ ok, wxCharBuffer.fromString none ok = some { m_str := none }) ∧
    (∀ ok, wxWCharBuffer.fromString none ok = some { m_wcs := none }) ∧
    (∀ pre rest : List char, (∀ c ∈ pre, c ≠ 0) →
      ∃ b, wxCharBuffer.fromString (some (pre ++ 0 :: rest)) true = some b ∧
        b.m_str = some ((pre ++ [0]).map some) ∧
        ((pre ++ [0]).map some).length = pre.length + 1 ∧
        (∀ i, i < pre.length → b.index i = (pre ++ 0 :: rest)[i]?) ∧
        b.index pre.length = some 0) ∧
    (∀ pre rest : List wchar_t, (∀ c ∈ pre, c ≠ 0) →
      (pre.length + 1) * SIZEOF_WCHAR_T ≤ SIZE_MAX →
      ∃ b, wxWCharBuffer.fromString (some (pre ++ 0 :: rest)) true = some b ∧
        b.m_wcs = some ((pre ++ [0]).map some) ∧
        ((pre ++ [0]).map some).length = pre.length + 1 ∧
        (∀ i, i < pre.length → b.index i = (pre ++ 0 :: rest)[i]?) ∧
        b.index pre.length = some 0) := by
  refine ⟨fun _ => rfl, fun _ => rfl, fun pre rest hpre => ?_, fun pre rest hpre hfit => ?_⟩
  · obtain ⟨hl, hi, hz⟩ := load_terminated (0 : char) pre rest
    have hmem : (0 : char) ∈ pre ++ 0 :: rest := by simp
    have htw := takeWhile_terminated (0 : char) pre rest hpre
    refine ⟨⟨some ((pre ++ [(0 : char)]).map some)⟩, ?_, rfl, hl, hi, hz⟩
    simp only [wxCharBuffer.fromString, strdup, if_pos hmem, htw, if_true, Option.map_some']
  · obtain ⟨hl, hi, hz⟩ := load_terminated (0 : wchar_t) pre rest
    have hM : SIZE_MAX = SIZE_MOD - 1 := rfl
    have hpos : 0 < SIZE_MOD := by simp [SIZE_MOD]
    have h4 : SIZEOF_WCHAR_T = 4 := rfl
    have hmem : (0 : wchar_t) ∈ pre ++ 0 :: rest := by simp
    have htw := takeWhile_terminated (0 : wchar_t) pre rest hpre
    have hlen : wxWcslen (pre ++ 0 :: rest) = some pre.length := by
      simp only [wxWcslen, if_pos hmem, htw]
    have hsz : ((pre.length + 1) * SIZEOF_WCHAR_T) % SIZE_MOD / SIZEOF_WCHAR_T
        = pre.length + 1 := by
      rw [Nat.mod_eq_of_lt (by omega), h4, Nat.mul_div_cancel _ (by decide)]
    have hne : pre.length + 1 ≠ 0 := by omega
    have hbound : pre.length + 1 ≤ (List.replicate (pre.length + 1)
        (none : Option wchar_t)).length ∧ pre.length + 1 ≤ (pre ++ 0 :: rest).length := by
      simp
    have htake : (pre ++ 0 :: rest).take (pre.length + 1) = pre ++ [0] := by
      rw [show pre ++ 0 :: rest = (pre ++ [0]) ++ rest by simp]
      exact List.take_left' (by simp)
    refine ⟨⟨some ((pre ++ [(0 : wchar_t)]).map some)⟩, ?_, rfl, hl, hi, hz⟩
    simp only [wxWCharBuffer.fromString, hlen, hsz, malloc, if_true, Option.map_some', memcpy,
      if_neg hne, if_pos hbound, htake, List.take_zero, List.nil_append, Nat.zero_add,
      List.drop_replicate, Nat.sub_self, List.replicate_zero, List.append_nil]

/-- The sequence constructors at "hi" followed by bytes after the terminator. -/
theorem sequence_constructor_witness :
    (∃ b, wxCharBuffer.fromString (some ([104, 105] ++ 0 :: [7, 0])) true = some b ∧
        b.m_str = some (([104, 105] ++ [0]).map some) ∧
        (([104, 105] ++ [0] : List char).map some).length = [(104 : char), 105].length + 1 ∧
        (∀ i, i < [(104 : char), 105].length →
          b.index i = ([104, 105] ++ 0 :: [7, 0] : List char)[i]?) ∧
        b.index [(104 : char), 105].length = some 0) ∧
    (∃ b, wxWCharBuffer.fromString (some ([104, 105] ++ 0 :: [7, 0])) true = some b ∧
        b.m_wcs = some (([104, 105] ++ [0]).map some) ∧
        (([104, 105] ++ [0] : List wchar_t).map some).length = [(104 : wchar_t), 105].length + 1 ∧
        (∀ i, i < [(104 : wchar_t), 105].length →
          b.index i = ([104, 105] ++ 0 :: [7, 0] : List wchar_t)[i]?) ∧
        b.index [(104 : wchar_t), 105].length = some 0) :=
  ⟨sequence_constructor.2.2.1 [104, 105] [7, 0] (by simp),
   sequence_constructor.2.2.2 [104, 105] [7, 0] (by simp)
     (by simp [SIZEOF_WCHAR_T, SIZE_MAX, SIZE_MOD])⟩

/-! ## Length and construction of the growable buffer -/

/-- C15. `SetDataLen(newLength)` reports a violation exactly when newLength exceeds
the capacity; in every case it sets the length to exactly newLength, so a
length above the capacity is not clamped, and it leaves data and capacity as
they are. -/
theorem setLength_check (b : wxMemoryBuffer) (newLength : Nat) :
    ((b.SetDataLen newLength).2 = true ↔ b.m_size < newLength) ∧
    (b.SetDataLen newLength).1.m_len = newLength ∧
    (b.SetDataLen newLength).1.m_data = b.m_data ∧
    (b.SetDataLen newLength).1.m_size = b.m_size := by
  refine ⟨?_, rfl, rfl, rfl⟩
  simp [wxMemoryBuffer.SetDataLen, wxASSERT]

/-- C16. Construction of the growable buffer (allocation succeeding): the capacity
is the size asked for, the length is 0, and the handle is NULL exactly when
the size is 0, else a fresh block of that many bytes; construction without an
argument is construction with BLOCK_SIZE = 1024. -/
theorem construct_state (size : Nat) (ok : Bool) :
    (wxMemoryBuffer.construct size true).m_size = size ∧
    (wxMemoryBuffer.construct size true).m_len = 0 ∧
    ((wxMemoryBuffer.construct size true).m_data = none ↔ size = 0) ∧
    (wxMemoryBuffer.construct size true).m_data
      = (if size = 0 then none else some (List.replicate size none)) ∧
    wxMemoryBuffer.constructDefault ok = wxMemoryBuffer.construct BLOCK_SIZE ok ∧
    BLOCK_SIZE = 1024 ∧
    (wxMemoryBuffer.constructDefault true).m_size = 1024 ∧
    (wxMemoryBuffer.constructDefault true).m_len = 0 ∧
    (wxMemoryBuffer.constructDefault true).m_data ≠ none := by
  have hd : (wxMemoryBuffer.construct size true).m_data
      = (if size = 0 then none else some (List.replicate size none)) := by
    by_cases h : size = 0
    · simp [wxMemoryBuffer.construct, h]
    · simp [wxMemoryBuffer.construct, malloc, h]
  refine ⟨rfl, rfl, ?_, hd, rfl, rfl, rfl, rfl, ?_⟩
  · rw [hd]
    by_cases h : size = 0 <;> simp [h]
  · show (some (List.replicate 1024 none) : Ptr char) ≠ none
    exact Option.some_ne_none _

/-- C17, counterexample. After `SetDataLen(5)` on a constructed buffer of capacity 4
the length is 5; `SetDataLen(GetDataLen())` on that buffer leaves the state as
it is but reports a violation, since 5 exceeds the capacity. -/
theorem setLength_same_reports :
    (((wxMemoryBuffer.construct 4 true).SetDataLen 5).1.SetDataLen
      ((wxMemoryBuffer.construct 4 true).SetDataLen 5).1.GetDataLen).2 = true ∧
    (((wxMemoryBuffer.construct 4 true).SetDataLen 5).1.SetDataLen
      ((wxMemoryBuffer.construct 4 true).SetDataLen 5).1.GetDataLen).1
      = ((wxMemoryBuffer.construct 4 true).SetDataLen 5).1 := by
  exact ⟨by decide, rfl⟩

/-- C17 (amended). For every buffer with length ≤ capacity,
`SetDataLen(GetDataLen())` reports no violation and returns the very same
state: data (and so every byte of the block), capacity and length. -/
theorem setLength_same (b : wxMemoryBuffer) (hle : b.m_len ≤ b.m_size) :
    b.SetDataLen b.GetDataLen = (b, false) := by
  simp [wxMemoryBuffer.SetDataLen, wxMemoryBuffer.GetDataLen, wxASSERT, hle]

/-- The no-op at the buffer holding "AB" in a block of 4 bytes. -/
theorem setLength_same_witness :
    (⟨some [some 65, some 66, none, none], 4, 2⟩ : wxMemoryBuffer).SetDataLen
      (⟨some [some 65, some 66, none, none], 4, 2⟩ : wxMemoryBuffer).GetDataLen
      = (⟨some [some 65, some 66, none, none], 4, 2⟩, false) :=
  setLength_same ⟨some [some 65, some 66, none, none], 4, 2⟩ (by decide)

/-! ## Reserving -/

/-- C18, evaluation at the failing input. A constructed buffer of capacity 4 takes
"ABCD" and is full; `SetBufSize(SIZE_MAX - 1020)` then computes the growth
target SIZE_MAX + 4, which wraps to 3, and reallocates the block to 3 bytes:
the length stays 4 but the fourth byte is gone. -/
theorem reserve_loses_bytes :
    (wxMemoryBuffer.construct 4 true).AppendData [65, 66, 67, 68] 4 true
      = some (⟨some [some 65, some 66, some 67, some 68], 4, 4⟩, false) ∧
    (⟨some [some 65, some 66, some 67, some 68], 4, 4⟩ : wxMemoryBuffer).SetBufSize
        (SIZE_MAX - 1020) true
      = ⟨some [some 65, some 66, some 67], 3, 4⟩ ∧
    (⟨some [some 65, some 66, some 67, some 68], 4, 4⟩ : wxMemoryBuffer).cells[3]?
      = some (some 68) ∧
    ((⟨some [some 65, some 66, some 67, some 68], 4, 4⟩ : wxMemoryBuffer).SetBufSize
        (SIZE_MAX - 1020) true).cells[3]? = none := by
  have h : (⟨some [some 65, some 66, some 67, some 68], 4, 4⟩ : wxMemoryBuffer).SetBufSize
      (SIZE_MAX - 1020) true = ⟨some [some 65, some 66, some 67], 3, 4⟩ := by
    simp [wxMemoryBuffer.SetBufSize, wxMemoryBuffer.ResizeIfNeeded, realloc, SIZE_MAX, SIZE_MOD,
      BLOCK_SIZE]
  refine ⟨by decide, h, rfl, ?_⟩
  rw [h]
  rfl

/-- C19, counterexample. On a default-constructed buffer, `SetBufSize(SIZE_MAX)`
whose reallocation fails leaves capacity 1023, not SIZE_MAX + BLOCK_SIZE, and
`SetBufSize(2^64 - 1024)` whose reallocation fails leaves capacity 0, which
is not positive. -/
theorem failed_growth_wraps :
    (wxMemoryBuffer.constructDefault true).m_size < SIZE_MAX ∧
    ((wxMemoryBuffer.constructDefault true).SetBufSize SIZE_MAX false).m_data = none ∧
    ((wxMemoryBuffer.constructDefault true).SetBufSize SIZE_MAX false).m_size = 1023 ∧
    ((wxMemoryBuffer.constructDefault true).SetBufSize SIZE_MAX false).m_size
      ≠ SIZE_MAX + BLOCK_SIZE ∧
    (wxMemoryBuffer.constructDefault true).m_size < SIZE_MOD - 1024 ∧
    ((wxMemoryBuffer.constructDefault true).SetBufSize (SIZE_MOD - 1024) false).m_data = none ∧
    ((wxMemoryBuffer.constructDefault true).SetBufSize (SIZE_MOD - 1024) false).m_size = 0 := by
  simp [wxMemoryBuffer.SetBufSize, wxMemoryBuffer.ResizeIfNeeded,
    wxMemoryBuffer.constructDefault, wxMemoryBuffer.construct, realloc, SIZE_MAX, SIZE_MOD,
    BLOCK_SIZE]

/-- C19 (amended). Failed growth: for every buffer and every minCapacity above the
capacity with minCapacity + BLOCK_SIZE ≤ SIZE_MAX, when the reallocation
inside `ResizeIfNeeded(minCapacity)` fails the state afterwards has a NULL
handle, capacity minCapacity + BLOCK_SIZE, which is positive, and the old
length; `SetBufSize` does the same. -/
theorem failed_growth (b : wxMemoryBuffer) (minCapacity : Nat) (hgt : b.m_size < minCapacity)
    (hfit : minCapacity + BLOCK_SIZE ≤ SIZE_MAX) :
    b.ResizeIfNeeded minCapacity false = ⟨none, minCapacity + BLOCK_SIZE, b.m_len⟩ ∧
    b.SetBufSize minCapacity false = ⟨none, minCapacity + BLOCK_SIZE, b.m_len⟩ ∧
    0 < minCapacity + BLOCK_SIZE := by
  have hM : SIZE_MAX = SIZE_MOD - 1 := rfl
  have hpos : 0 < SIZE_MOD := by simp [SIZE_MOD]
  have hB : BLOCK_SIZE = 1024 := rfl
  have hmod : (minCapacity + BLOCK_SIZE) % SIZE_MOD = minCapacity + BLOCK_SIZE :=
    Nat.mod_eq_of_lt (by omega)
  have h : b.ResizeIfNeeded minCapacity false = ⟨none, minCapacity + BLOCK_SIZE, b.m_len⟩ := by
    simp only [wxMemoryBuffer.ResizeIfNeeded, gt_iff_lt, hgt, if_true, hmod, realloc,
      Bool.false_eq_true, if_false]
  exact ⟨h, h, by omega⟩

/-- Failed growth at a constructed buffer of capacity 4 and minCapacity 5. -/
theorem failed_growth_witness :
    (wxMemoryBuffer.construct 4 true).ResizeIfNeeded 5 false = ⟨none, 5 + BLOCK_SIZE, 0⟩ ∧
    (wxMemoryBuffer.construct 4 true).SetBufSize 5 false = ⟨none, 5 + BLOCK_SIZE, 0⟩ ∧
    0 < 5 + BLOCK_SIZE :=
  failed_growth (wxMemoryBuffer.construct 4 true) 5 (by decide)
    (by simp [BLOCK_SIZE, SIZE_MAX, SIZE_MOD])

/-! ## Amortised growth -/

/-- C20. Growth schedule: on a default-constructed buffer (capacity 1024, length 0,
allocations succeeding), for every k bytes such that no `size_t` computation
wraps, that is, such that 1025 * (k / 1025) + 1024 ≤ SIZE_MAX, appending the
bytes one at a time with `AppendByte` returns a buffer of length k and
capacity 1025 * (k / 1025) + 1024; exactly k / 1025 calls of `realloc` are
made; the last append, number k, reallocates exactly when k is a multiple of
1025, and the capacity is then 1024 above the length. -/
theorem growth_schedule (l : List char) (hfit : 1025 * (l.length / 1025) + 1024 ≤ SIZE_MAX) :
    (wxMemoryBuffer.constructDefault true).m_size = 1024 ∧
    (wxMemoryBuffer.constructDefault true).m_len = 0 ∧
    ∃ b', (wxMemoryBuffer.constructDefault true).appendEach l true = some (b', false) ∧
      b'.m_len = l.length ∧
      b'.m_size = 1025 * (l.length / 1025) + 1024 ∧
      (wxMemoryBuffer.constructDefault true).reallocCount l true = l.length / 1025 ∧
      (l.length % 1025 = 0 → b'.m_size - b'.m_len = 1024) ∧
      (∀ l1 c, l = l1 ++ [c] →
        ∃ b1, (wxMemoryBuffer.constructDefault true).appendEach l1 true = some (b1, false) ∧
          (b1.AppendByteReallocs = true ↔ l.length % 1025 = 0)) := by
  have hM : SIZE_MAX = SIZE_MOD - 1 := rfl
  have hpos : 0 < SIZE_MOD := by simp [SIZE_MOD]
  have hc1 : (wxMemoryBuffer.constructDefault true).m_len = 0 := rfl
  have hc2 : (wxMemoryBuffer.constructDefault true).m_size = 1024 := rfl
  have hc3 : (wxMemoryBuffer.constructDefault true).m_data = some (List.replicate 1024 none) :=
    rfl
  have hstart : ∀ l0 : List char, 1025 * (l0.length / 1025) + 1024 ≤ SIZE_MAX →
      ∃ b' cs', (wxMemoryBuffer.constructDefault true).appendEach l0 true = some (b', false) ∧
        b'.m_data = some cs' ∧ cs'.length = b'.m_size ∧ b'.m_len = l0.length ∧
        b'.m_size = 1025 * (l0.length / 1025) + 1024 ∧
        (wxMemoryBuffer.constructDefault true).reallocCount l0 true = l0.length / 1025 := by
    intro l0 h0
    obtain ⟨b', cs', hrun, hd, hsz, hl, hs, hc⟩ :=
      schedule_run l0 (wxMemoryBuffer.constructDefault true) (List.replicate 1024 none) hc3
        (by rw [hc2, List.length_replicate]) (by rw [hc1, hc2])
        (by rw [hc1, Nat.zero_add]; exact h0)
    rw [hc1, Nat.zero_add] at hl hs hc
    exact ⟨b', cs', hrun, hd, hsz, hl, hs, by rw [hc]; simp⟩
  obtain ⟨b', cs', hrun, -, -, hl, hs, hc⟩ := hstart l hfit
  refine ⟨hc2, hc1, b', hrun, hl, hs, hc, fun hk => by omega, fun l1 c hl1 => ?_⟩
  have hlen : l.length = l1.length + 1 := by rw [hl1]; simp
  obtain ⟨b1, cs1, hrun1, hd1, -, hlb1, hsb1, -⟩ := hstart l1 (by omega)
  refine ⟨b1, hrun1, ?_⟩
  have hmod : (b1.m_len + 1) % SIZE_MOD = b1.m_len + 1 := Nat.mod_eq_of_lt (by omega)
  simp only [wxMemoryBuffer.AppendByteReallocs, hd1, Option.isSome_some, Bool.true_and, hmod,
    decide_eq_true_eq]
  omega

/-- The schedule at k = 1025 appended bytes: append number 1025 is the first to
reallocate, and the capacity becomes 2049. -/
theorem growth_schedule_witness :
    ∃ b', (wxMemoryBuffer.constructDefault true).appendEach (List.replicate 1025 65) true
        = some (b', false) ∧
      b'.m_len = 1025 ∧ b'.m_size = 2049 ∧
      (wxMemoryBuffer.constructDefault true).reallocCount (List.replicate 1025 65) true = 1 ∧
      b'.m_size - b'.m_len = 1024 := by
  have hlen : (List.replicate 1025 (65 : char)).length = 1025 := List.length_replicate _ _
  obtain ⟨-, -, b', h1, h2, h3, h4, h5, -⟩ :=
    growth_schedule (List.replicate 1025 65) (by rw [hlen]; simp [SIZE_MAX, SIZE_MOD])
  rw [hlen] at h2 h3 h4 h5
  exact ⟨b', h1, h2, h3, h4, h5 (by decide)⟩

end wx
